import Mathlib

/-!
Shallow embedding of the layout engine of `text-grid-rs`
(`src/grid_builder.rs`), together with proofs of the specification
claims about column-width reconciliation, border drawing, header
emission and rendering safety.

Modelling conventions:
* `usize` is modelled as `Nat`; none of the verified code paths relies on
  wrap-around (the only subtraction sites are guarded in the source and the
  guards are reproduced here).
* The Rust `GridBuilder` stores a flat cell list plus row start indices and a
  shared string buffer; each cell stores the byte span of its text and its
  precomputed display width.  The `rows()` iterator exposes exactly a list of
  rows, each a list of cells carrying `(text, width, colspan)`, which is the
  representation used here.  The display width of a cell is computed once at
  push time by the `unicode-width` crate; it is treated as opaque data (the
  `width` field), never recomputed from the text.
* The `HashMap` used to deduplicate spanning blocks has unspecified iteration
  order; it is modelled as an insertion-ordered association list, and the
  determinism claim is proved for every permutation of that list.
* `usize::max_value()` used as the "no next width" sentinel becomes
  `Option Nat` with `none` as the sentinel (the source never lets a real
  width reach the sentinel).
-/

namespace TextGrid

/-- Per-column style (`ColumnStyle` in `grid_builder.rs`). -/
structure ColumnStyle where
  column_end : Bool
  stretch : Bool
deriving DecidableEq, Repr

/-- `ColumnStyle::DEFAULT`: `column_end = true`, `stretch = false`. -/
def ColumnStyle.DEFAULT : ColumnStyle := ⟨true, false⟩

/-- One stored cell: its formatted text, its display width (as computed by
`unicode-width` when the cell was pushed) and its column span
(`CellEntry` in `grid_builder.rs`; the cell style is irrelevant to the
claims proved here and is omitted). -/
structure CellEntry where
  s : String
  width : Nat
  colspan : Nat
deriving DecidableEq, Repr

/-- One row: its cells in order plus the "separator follows" flag
(`RowEntry` in `grid_builder.rs`, with the cell range resolved to the
actual cell list). -/
structure RowEntry where
  cells : List CellEntry
  has_separator : Bool
deriving DecidableEq, Repr

/-- The grid builder state (`GridBuilder` in `grid_builder.rs`): rows of
cells, the derived column count, and the public `column_styles` vector. -/
structure GridBuilder where
  rows : List RowEntry
  columns : Nat
  column_styles : List ColumnStyle
deriving DecidableEq, Repr

/-- `GridBuilder::new()`. -/
def GridBuilder.new : GridBuilder := ⟨[], 0, []⟩

/-- `GridBuilder::push` + `impl Drop for RowBuilder`: the cells pushed while
building the row (a `push_with_colspan` with colspan 0 stores nothing, so
zero-colspan requests are dropped) are appended as one row, and `columns`
becomes the max of its old value and the sum of the row's colspans. -/
def pushRow (g : GridBuilder) (cells : List CellEntry) : GridBuilder :=
  let kept := cells.filter (fun c => c.colspan ≠ 0)
  { g with
    rows := g.rows ++ [⟨kept, false⟩],
    columns := max g.columns ((kept.map (fun c => c.colspan)).sum) }

/-- Helper for `push_separator`: set the flag on the last row, if any. -/
def setLastSeparator : List RowEntry → List RowEntry
  | [] => []
  | [r] => [{ r with has_separator := true }]
  | r :: rs => r :: setLastSeparator rs

/-- `GridBuilder::push_separator`. -/
def pushSeparator (g : GridBuilder) : GridBuilder :=
  { g with rows := setLastSeparator g.rows }

/-- A complete use of the public row-building API. -/
inductive BuildOp where
  | row (cells : List CellEntry)
  | sep
deriving DecidableEq, Repr

/-- Apply one public build operation. -/
def applyOp (g : GridBuilder) : BuildOp → GridBuilder
  | .row cs => pushRow g cs
  | .sep => pushSeparator g

/-- A grid fully built through the public API from `GridBuilder::new()`. -/
def buildGrid (ops : List BuildOp) : GridBuilder :=
  ops.foldl applyOp GridBuilder.new

/-- `GridBuilder::column_style`: index into `column_styles` with the
default style past the end. -/
def GridBuilder.columnStyle (g : GridBuilder) (column : Nat) : ColumnStyle :=
  g.column_styles.getD column ColumnStyle.DEFAULT

/-- `GridBuilder::has_border`. -/
def GridBuilder.hasBorder (g : GridBuilder) (n : Nat) : Bool :=
  if n = 0 then false
  else if g.columns ≤ n then true
  else (g.columnStyle (n - 1)).column_end

/-- `GridBuilder::has_left_padding`. -/
def GridBuilder.hasLeftPadding (g : GridBuilder) (n : Nat) : Bool :=
  if n = 0 then true else g.hasBorder n

/-- `GridBuilder::has_right_padding`. -/
def GridBuilder.hasRightPadding (g : GridBuilder) (n : Nat) : Bool :=
  if n = g.columns then true else g.hasBorder (n + 1)

/-- `GridBuilder::stretch_count`: how many of the `colspan` columns starting
at `column` are stretch-flagged. -/
def GridBuilder.stretchCount (g : GridBuilder) (column colspan : Nat) : Nat :=
  ((List.range' column colspan).filter (fun i => (g.columnStyle i).stretch)).length

/-- `GridBuilder::get_width`: total width allotted to a cell at `column`
spanning `colspan` columns, i.e. the spanned widths plus 3 for every
internal boundary where a divider prints. -/
def GridBuilder.getWidth (g : GridBuilder) (widths : List Nat) (column colspan : Nat) : Nat :=
  (List.range' (column + 1) (colspan - 1)).foldl
    (fun acc i => acc + (if g.hasBorder i then 3 else 0) + widths.getD i 0)
    (widths.getD column 0)

/-- Cells of one row paired with their starting columns (the `column` field
maintained by `Cursor::next`). -/
def withPositions : Nat → List CellEntry → List (Nat × CellEntry)
  | _, [] => []
  | col, c :: cs => (col, c) :: withPositions (col + c.colspan) cs

/-- All cells of all rows with their starting columns, row by row
(the iteration order of `GridBuilder::rows`). -/
def placedOf : List RowEntry → List (Nat × CellEntry)
  | [] => []
  | r :: rs => withPositions 0 r.cells ++ placedOf rs

/-- Well-formedness of a built grid: every stored cell has `colspan ≥ 1` and
fits inside the derived column count.  Every grid built through the public
API satisfies this (proved below). -/
def GridBuilder.WellFormed (g : GridBuilder) : Prop :=
  ∀ pc ∈ placedOf g.rows, 1 ≤ pc.2.colspan ∧ pc.1 + pc.2.colspan ≤ g.columns

instance (g : GridBuilder) : Decidable g.WellFormed :=
  inferInstanceAs (Decidable (∀ pc ∈ placedOf g.rows, _ ∧ _))

/-- One step of the simple-cell width pass of `get_widths`: a colspan-1 cell
raises its column's entry to at least its display width. -/
def simpleStep (ws : List Nat) (pc : Nat × CellEntry) : List Nat :=
  if pc.2.colspan = 1 then ws.set pc.1 (max (ws.getD pc.1 0) pc.2.width) else ws

/-- The `widths` vector right after the first pass of `get_widths`
(`vec![0; columns]` updated by every colspan-1 cell). -/
def GridBuilder.simpleWidths (g : GridBuilder) : List Nat :=
  (placedOf g.rows).foldl simpleStep (List.replicate g.columns 0)

/-- `blocks.entry(key).or_insert(0); *e = max(*e, width)` on an
association list keyed by `(column, colspan)`. -/
def updateBlock : List ((Nat × Nat) × Nat) → (Nat × Nat) → Nat → List ((Nat × Nat) × Nat)
  | [], key, w => [(key, w)]
  | (k, v) :: rest, key, w =>
      if k = key then (k, max v w) :: rest else (k, v) :: updateBlock rest key w

/-- One step of the block-collection pass of `get_widths`. -/
def blockStep (m : List ((Nat × Nat) × Nat)) (pc : Nat × CellEntry) : List ((Nat × Nat) × Nat) :=
  if pc.2.colspan = 1 then m else updateBlock m (pc.1, pc.2.colspan) pc.2.width

/-- The deduplicated spanning blocks: key `(column, colspan)`, value the max
display width over the cells sharing that key.  The Rust `HashMap` has
unspecified iteration order; this canonical list is in first-insertion
order, and determinism over every permutation is proved below. -/
def GridBuilder.blockMap (g : GridBuilder) : List ((Nat × Nat) × Nat) :=
  (placedOf g.rows).foldl blockStep []

/-- The `Block` struct of `get_widths`; field order matters because the
derived `Ord` compares lexicographically in declaration order. -/
structure Block where
  stretch : Nat
  colspan : Nat
  column : Nat
  width : Nat
deriving DecidableEq, Repr

/-- The derived lexicographic `Ord` on `Block`:
`(stretch, colspan, column, width)` ascending. -/
def Block.le (a b : Block) : Bool :=
  decide (a.stretch < b.stretch) ||
    (decide (a.stretch = b.stretch) &&
      (decide (a.colspan < b.colspan) ||
        (decide (a.colspan = b.colspan) &&
          (decide (a.column < b.column) ||
            (decide (a.column = b.column) && decide (a.width ≤ b.width))))))

/-- `Block.le` as a relation, for the sorting lemmas. -/
def blockRel (a b : Block) : Prop := Block.le a b = true

instance : DecidableRel blockRel :=
  fun a b => inferInstanceAs (Decidable (Block.le a b = true))

/-- The blocks handed to the sort: each key of the deduplicated map with its
stretch count. -/
def GridBuilder.blocksOf (g : GridBuilder) : List Block :=
  g.blockMap.map (fun kv => ⟨g.stretchCount kv.1.1 kv.1.2, kv.1.2, kv.1.1, kv.2⟩)

/-- `blocks.sort()` (a stable sort; under the antisymmetric total order
`blockRel` every correct sort returns the same list). -/
def GridBuilder.sortedBlocks (g : GridBuilder) : List Block :=
  List.insertionSort blockRel g.blocksOf

/-- The `start` column of a block's distribution: the block's first
stretch-flagged column when any is stretch-flagged, else its first column.
The `.unwrap()` in the source is guarded by `b.stretch != 0`; the `getD`
default is likewise unreachable under that guard. -/
def findStart (g : GridBuilder) (b : Block) : Nat :=
  if b.stretch = 0 then b.column
  else (((List.range' b.column b.colspan).find?
          (fun c => (g.columnStyle c).stretch)).getD b.column)

/-- State of the minimum scan inside the distribution loop:
`expand_cols`, `min_width` and `next_width` (with `none` standing for the
`usize::max_value()` sentinel). -/
structure ScanState where
  cols : List Nat
  minW : Nat
  nextW : Option Nat
deriving DecidableEq, Repr

/-- One column of the minimum scan
(`for column in start + 1..b.column + b.colspan { ... }`). -/
def scanStep (g : GridBuilder) (bstretch : Nat) (widths : List Nat)
    (s : ScanState) (column : Nat) : ScanState :=
  if bstretch = 0 ∨ (g.columnStyle column).stretch then
    let w := widths.getD column 0
    let s := if w < s.minW then ⟨[], w, some s.minW⟩ else s
    if w = s.minW then { s with cols := s.cols ++ [column] } else s
  else s

/-- The full minimum scan of one distribution iteration, starting from
`expand_cols = [start]`, `min_width = widths[start]`. -/
def scanMin (g : GridBuilder) (b : Block) (start : Nat) (widths : List Nat) : ScanState :=
  (List.range' (start + 1) (b.column + b.colspan - (start + 1))).foldl
    (scanStep g b.stretch widths) ⟨[start], widths.getD start 0, none⟩

/-- One column's grow increment inside the distribution loop:
`expand_width = min((deficit + count - 1) / count, next_width - min_width)`,
with `nextW = none` for the `usize::max_value()` sentinel (no cap). -/
def expandWidth (bwidth minW : Nat) (nextW : Option Nat) (count wsum : Nat) : Nat :=
  let all := bwidth - wsum
  let ew := (all + count - 1) / count
  match nextW with
  | none => ew
  | some nw => min ew (nw - minW)

/-- The distribution `for i in 0..expand_cols.len()` loop: grow each minimal
column by `ceil(deficit / remaining)` capped at `next_width - min_width`. -/
def distribute (bwidth minW : Nat) (nextW : Option Nat) :
    List Nat → List Nat × Nat → List Nat × Nat
  | [], s => s
  | c :: rest, (widths, wsum) =>
      let ew := expandWidth bwidth minW nextW (rest.length + 1) wsum
      distribute bwidth minW nextW rest (widths.set c (widths.getD c 0 + ew), wsum + ew)

/-- The `while width_sum < b.width` loop, as a fuel-indexed iteration.
Each pass strictly increases `width_sum` (proved below), so fuel `b.width`
always suffices; the Rust loop terminates for the same reason. -/
def expandLoop (g : GridBuilder) (b : Block) (start : Nat) :
    Nat → List Nat × Nat → List Nat × Nat
  | 0, s => s
  | fuel + 1, (widths, wsum) =>
      if wsum < b.width then
        let sc := scanMin g b start widths
        expandLoop g b start fuel (distribute b.width sc.minW sc.nextW sc.cols (widths, wsum))
      else (widths, wsum)

/-- Processing of one block in `get_widths`: initialize `width_sum`, pick
`start`, run the distribution loop. -/
def processBlock (g : GridBuilder) (widths : List Nat) (b : Block) : List Nat :=
  let wsum := g.getWidth widths b.column b.colspan
  let start := findStart g b
  (expandLoop g b start b.width (widths, wsum)).1

/-- `GridBuilder::get_widths`. -/
def GridBuilder.getWidths (g : GridBuilder) : List Nat :=
  g.sortedBlocks.foldl (processBlock g) g.simpleWidths

/-- The colspans of row `r` (an out-of-range row reads as empty). -/
def rowColspans (g : GridBuilder) (r : Nat) : List Nat :=
  ((g.rows.getD r ⟨[], false⟩).cells.map (fun c => c.colspan))

/-- `GridBuilder::row(r)`: a cursor (current column, remaining colspans)
when the row exists. -/
def cursorInit (g : GridBuilder) (r : Nat) : Option (Nat × List Nat) :=
  if r < g.rows.length then some (0, rowColspans g r) else none

/-- `while c.column <= column && c.next().is_some() {}`: advance a cursor
past output column `col`. -/
def advance (col : Nat) : Nat → List Nat → Nat × List Nat
  | cur, [] => (cur, [])
  | cur, c :: rest => if cur ≤ col then advance col (cur + c) rest else (cur, c :: rest)

/-- `advance` lifted to optional cursors (a missing row stays missing). -/
def advanceO (col : Nat) : Option (Nat × List Nat) → Option (Nat × List Nat)
  | none => none
  | some (cur, cs) => some (advance col cur cs)

/-- The character the separator line prints at the boundary after output
column `col` (boundary position `col + 1`), assuming `has_border` holds
there: `'|'` when every existing adjacent row's cursor sits exactly at the
boundary, `'-'` otherwise. -/
def GridBuilder.sepBoundaryChar (g : GridBuilder) (r col : Nat) : Char :=
  if ([advanceO col (cursorInit g r), advanceO col (cursorInit g (r + 1))].filterMap id).all
      (fun c => c.1 == col + 1) then '|' else '-'

/-- One output column of the separator line of `Display::fmt`: dashes with
the padding rule, then the boundary character when `has_border` holds,
carrying the two row cursors exactly as the source does. -/
def sepStep (g : GridBuilder) (widths : List Nat)
    (st : List Char × Option (Nat × List Nat) × Option (Nat × List Nat)) (col : Nat) :
    List Char × Option (Nat × List Nat) × Option (Nat × List Nat) :=
  let out := st.1
  let out := out ++ (if g.hasLeftPadding col then ['-'] else [])
  let out := out ++ List.replicate (widths.getD col 0) '-'
  let out := out ++ (if g.hasRightPadding col then ['-'] else [])
  let ca := advanceO col st.2.1
  let cb := advanceO col st.2.2
  let out := out ++ (if g.hasBorder (col + 1) then
      [if ([ca, cb].filterMap id).all (fun c => c.1 == col + 1) then '|' else '-'] else [])
  (out, ca, cb)

/-- The separator line drawn under row `r` (the characters between the two
`writeln!` calls of `Display::fmt`). -/
def GridBuilder.sepRow (g : GridBuilder) (r : Nat) : List Char :=
  ((List.range g.getWidths.length).foldl (sepStep g g.getWidths)
    ([], cursorInit g r, cursorInit g (r + 1))).1

/-- Restatement of the separator line in terms of `sepBoundaryChar`
(no threaded cursor state); proved equal to `sepRow` below. -/
def GridBuilder.sepRowSpec (g : GridBuilder) (r : Nat) : List Char :=
  (List.range g.getWidths.length).foldl (fun out col =>
    out ++ (if g.hasLeftPadding col then ['-'] else [])
        ++ List.replicate (g.getWidths.getD col 0) '-'
        ++ (if g.hasRightPadding col then ['-'] else [])
        ++ (if g.hasBorder (col + 1) then [g.sepBoundaryChar r col] else [])) []

/-- A row of colspans breaks exactly at boundary `n` when `n` is one of its
prefix sums (no cell spans across `n`, and the row reaches `n`). -/
def breaksAt (cs : List Nat) (n : Nat) : Prop := ∃ k, (cs.take k).sum = n

instance (cs : List Nat) (n : Nat) : Decidable (breaksAt cs n) := by
  have hd : Decidable (∃ k ∈ List.range (cs.length + 1), (cs.take k).sum = n) :=
    List.decidableBEx _ _
  have hiff : (∃ k ∈ List.range (cs.length + 1), (cs.take k).sum = n) ↔ breaksAt cs n := by
    constructor
    · rintro ⟨k, _, hk⟩; exact ⟨k, hk⟩
    · rintro ⟨k, hk⟩
      rcases le_or_lt k cs.length with h | h
      · exact ⟨k, List.mem_range.2 (Nat.lt_succ_of_le h), hk⟩
      · refine ⟨cs.length, List.mem_range.2 (Nat.lt_succ_self _), ?_⟩
        rwa [List.take_length, ← List.take_of_length_le h.le]
  exact @decidable_of_iff _ _ hiff hd

/-! ### The schema visitor (layout, header and body sinks) -/

/-- A schema, as the sequence of `CellsWrite` calls it issues: a leaf is one
`content` call (with its `stretch` flag), a group is `column_start`,
its children, then `column_end(header)` (`CellsFormatter::column_with`). -/
inductive Schema where
  | leaf (stretch : Bool)
  | group (header : String) (children : List Schema)

mutual
/-- Number of leaf columns a schema declares. -/
def leafCount1 : Schema → Nat
  | .leaf _ => 1
  | .group _ cs => leafCountL cs
def leafCountL : List Schema → Nat
  | [] => 0
  | s :: ss => leafCount1 s + leafCountL ss
end

/-- The layout sink state (`GridLayout` in `grid_builder.rs`). -/
structure GridLayout where
  depth : Nat
  depth_max : Nat
  styles : List ColumnStyle
deriving DecidableEq, Repr

/-- `GridLayout::set_column_end_style`: force a divider after the last
declared column, if any. -/
def setLastColumnEnd : List ColumnStyle → List ColumnStyle
  | [] => []
  | [s] => [{ s with column_end := true }]
  | s :: ss => s :: setLastColumnEnd ss

/-- `CellsWrite::content` on the layout sink. -/
def glContent (stretch : Bool) (gl : GridLayout) : GridLayout :=
  { gl with styles := gl.styles ++ [⟨false, stretch⟩] }

/-- `CellsWrite::column_start` on the layout sink. -/
def glColumnStart (gl : GridLayout) : GridLayout :=
  let gl := { gl with styles := setLastColumnEnd gl.styles }
  { gl with depth := gl.depth + 1, depth_max := max gl.depth_max (gl.depth + 1) }

/-- `CellsWrite::column_end` on the layout sink. -/
def glColumnEnd (gl : GridLayout) : GridLayout :=
  let gl := { gl with depth := gl.depth - 1 }
  { gl with styles := setLastColumnEnd gl.styles }

mutual
/-- Running a schema against the layout sink. -/
def glRun1 : Schema → GridLayout → GridLayout
  | .leaf st, gl => glContent st gl
  | .group _ cs, gl => glColumnEnd (glRunL cs (glColumnStart gl))
def glRunL : List Schema → GridLayout → GridLayout
  | [], gl => gl
  | s :: ss, gl => glRunL ss (glRun1 s gl)
end

/-- `GridLayout::from_schema` without the final `styles.pop()`. -/
def gridLayout (ss : List Schema) : GridLayout := glRunL ss ⟨0, 0, []⟩

/-- `GridLayout::from_schema`'s styles (the last one is popped). -/
def layoutStyles (ss : List Schema) : List ColumnStyle := (gridLayout ss).styles.dropLast

/-- The number of header rows `new_with_header` emits. -/
def depthMax (ss : List Schema) : Nat := (gridLayout ss).depth_max

/-- The header sink state (`HeaderWriter` in `grid_builder.rs`), with the
row being built inlined. -/
structure HeaderState where
  depth : Nat
  target : Nat
  column : Nat
  column_last : Nat
  row : List CellEntry
deriving DecidableEq, Repr

/-- `HeaderWriter::push_cell`: push a cell spanning the leaf columns
consumed since the last emission (`push_with_colspan` drops it when that
count is zero), then remember the current column.  Header labels here are
ASCII, so the display width of the label is its length. -/
def hwPushCell (label : String) (st : HeaderState) : HeaderState :=
  let colspan := st.column - st.column_last
  { st with
    row := st.row ++ (if colspan = 0 then [] else [⟨label, label.length, colspan⟩]),
    column_last := st.column }

/-- `CellsWrite::content` on the header sink. -/
def hwContent (st : HeaderState) : HeaderState := { st with column := st.column + 1 }

/-- `CellsWrite::column_start` on the header sink. -/
def hwColumnStart (st : HeaderState) : HeaderState :=
  let st := if st.depth ≤ st.target then hwPushCell "" st else st
  { st with depth := st.depth + 1 }

/-- `CellsWrite::column_end` on the header sink. -/
def hwColumnEnd (label : String) (st : HeaderState) : HeaderState :=
  let st := { st with depth := st.depth - 1 }
  if st.depth = st.target then hwPushCell label st else st

mutual
/-- Running a schema against the header sink. -/
def hwRun1 : Schema → HeaderState → HeaderState
  | .leaf _, st => hwContent st
  | .group h cs, st => hwColumnEnd h (hwRunL cs (hwColumnStart st))
def hwRunL : List Schema → HeaderState → HeaderState
  | [], st => st
  | s :: ss, st => hwRunL ss (hwRun1 s st)
end

/-- One full header-sink run for a given `target` depth, including the final
`push_cell("")` from `impl Drop for HeaderWriter`. -/
def headerRow (ss : List Schema) (target : Nat) : List CellEntry :=
  (hwPushCell "" (hwRunL ss ⟨0, target, 0, 0, []⟩)).row

mutual
/-- The body sink (`BodyWriter`): `column_start`/`column_end` are no-ops and
every leaf pushes exactly one colspan-1 cell (a present value is formatted,
an absent one pushes an empty cell); only the colspans matter for the
synchronization claims, so the run is modelled on colspans. -/
def bwRun1 : Schema → List Nat → List Nat
  | .leaf _, row => row ++ [1]
  | .group _ cs, row => bwRunL cs row
def bwRunL : List Schema → List Nat → List Nat
  | [], row => row
  | s :: ss, row => bwRunL ss (bwRun1 s row)
end

/-- `GridBuilder::new_with_header`: take the styles from the layout pass,
then push one header row per `target in 0..depth_max`, each followed by
`push_separator`. -/
def newWithHeader (ss : List Schema) : GridBuilder :=
  let g : GridBuilder := { GridBuilder.new with column_styles := layoutStyles ss }
  (List.range (depthMax ss)).foldl (fun g t => pushSeparator (pushRow g (headerRow ss t))) g

/-- The number of logical columns a row occupies: the sum of its colspans. -/
def rowSpanSum (r : RowEntry) : Nat := (r.cells.map (fun c => c.colspan)).sum

/-! ## Lemmas and theorems -/

lemma setLastSeparator_cells : ∀ rs : List RowEntry,
    (setLastSeparator rs).map (fun r => r.cells) = rs.map (fun r => r.cells)
  | [] => rfl
  | [_] => rfl
  | r :: r' :: rs => by
      simp only [setLastSeparator, List.map_cons, List.cons.injEq, true_and]
      simpa using setLastSeparator_cells (r' :: rs)

lemma setLastSeparator_append_one (l : List RowEntry) (r : RowEntry) :
    setLastSeparator (l ++ [r]) = l ++ [{ r with has_separator := true }] := by
  induction l with
  | nil => rfl
  | cons a l ih =>
      cases l with
      | nil => simp [setLastSeparator]
      | cons b l => simpa [setLastSeparator] using ih

lemma setLastSeparator_map_spans : ∀ rs : List RowEntry,
    (setLastSeparator rs).map rowSpanSum = rs.map rowSpanSum
  | [] => rfl
  | [_] => rfl
  | r :: r' :: rs => by
      simp only [setLastSeparator, List.map_cons, List.cons.injEq, true_and]
      exact setLastSeparator_map_spans (r' :: rs)

lemma buildGrid_columns_inv (ops : List BuildOp) (g : GridBuilder)
    (h : g.columns = (g.rows.map rowSpanSum).foldl max 0) :
    (ops.foldl applyOp g).columns = ((ops.foldl applyOp g).rows.map rowSpanSum).foldl max 0 := by
  induction ops generalizing g with
  | nil => exact h
  | cons op ops ih =>
      refine ih _ ?_
      cases op with
      | row cs =>
          simp only [applyOp, pushRow, List.map_append, List.foldl_append, List.map_cons,
            List.map_nil, List.foldl_cons, List.foldl_nil, rowSpanSum]
          rw [← h]
      | sep =>
          simp only [applyOp, pushSeparator, setLastSeparator_map_spans]
          exact h

/-- **C8**: after every row push completes, the builder's column count equals
the maximum over all rows pushed so far of the number of logical columns the
row occupies (the sum of the colspans of its stored cells); the count is
derived by `impl Drop for RowBuilder`, never declared by the caller. -/
theorem columns_eq_widest_row (ops : List BuildOp) :
    (buildGrid ops).columns = ((buildGrid ops).rows.map rowSpanSum).foldl max 0 :=
  buildGrid_columns_inv ops GridBuilder.new rfl

/-- **C7**: for every grid with at least one column, `has_border 0` is false,
`has_border columns` is true regardless of any column style, and every
interior position `0 < n < columns` reads `column_styles[n-1].column_end`,
with the default `true` past the end of `column_styles`. -/
theorem has_border_spec (g : GridBuilder) (hc : 0 < g.columns) :
    g.hasBorder 0 = false
    ∧ g.hasBorder g.columns = true
    ∧ (∀ n, 0 < n → n < g.columns → g.hasBorder n = (g.columnStyle (n - 1)).column_end)
    ∧ (∀ n, 0 < n → n < g.columns → g.column_styles.length ≤ n - 1 → g.hasBorder n = true) := by
  refine ⟨rfl, ?_, ?_, ?_⟩
  · simp [GridBuilder.hasBorder, Nat.pos_iff_ne_zero.mp hc]
  · intro n hn hlt
    simp [GridBuilder.hasBorder, Nat.pos_iff_ne_zero.mp hn, Nat.not_le.mpr hlt]
  · intro n hn hlt hlen
    have : g.columnStyle (n - 1) = ColumnStyle.DEFAULT := by
      simp [GridBuilder.columnStyle, List.getD_eq_getElem?_getD,
        List.getElem?_eq_none hlen]
    simp [GridBuilder.hasBorder, Nat.pos_iff_ne_zero.mp hn, Nat.not_le.mpr hlt, this,
      ColumnStyle.DEFAULT]

/-- Witness for `has_border_spec` at a concrete grid. -/
theorem has_border_spec_witness :
    let g : GridBuilder := ⟨[], 2, [⟨false, false⟩]⟩
    g.hasBorder 0 = false ∧ g.hasBorder 2 = true
      ∧ g.hasBorder 1 = (g.columnStyle 0).column_end := by
  have h := has_border_spec ⟨[], 2, [⟨false, false⟩]⟩ (by decide)
  exact ⟨h.1, h.2.1, h.2.2.1 1 (by decide) (by decide)⟩

lemma hwPushCell_column (lbl : String) (st : HeaderState) :
    (hwPushCell lbl st).column = st.column := rfl

lemma hwColumnStart_column (st : HeaderState) :
    (hwColumnStart st).column = st.column := by
  simp only [hwColumnStart]; split <;> rfl

lemma hwColumnEnd_column (lbl : String) (st : HeaderState) :
    (hwColumnEnd lbl st).column = st.column := by
  simp only [hwColumnEnd]; split <;> rfl

mutual
lemma hwRun1_column : ∀ (s : Schema) (st : HeaderState),
    (hwRun1 s st).column = st.column + leafCount1 s
  | .leaf _, st => by simp [hwRun1, hwContent, leafCount1]
  | .group h cs, st => by
      rw [hwRun1, leafCount1, hwColumnEnd_column, hwRunL_column cs (hwColumnStart st),
        hwColumnStart_column]
lemma hwRunL_column : ∀ (ss : List Schema) (st : HeaderState),
    (hwRunL ss st).column = st.column + leafCountL ss
  | [], st => by simp [hwRunL, leafCountL]
  | s :: ss, st => by
      rw [hwRunL, leafCountL, hwRunL_column ss (hwRun1 s st), hwRun1_column s st]
      omega
end

lemma hwPushCell_inv (lbl : String) (st : HeaderState)
    (h1 : (st.row.map (fun c => c.colspan)).sum = st.column_last)
    (h2 : st.column_last ≤ st.column) :
    ((hwPushCell lbl st).row.map (fun c => c.colspan)).sum = (hwPushCell lbl st).column_last
    ∧ (hwPushCell lbl st).column_last ≤ (hwPushCell lbl st).column := by
  refine ⟨?_, le_refl _⟩
  simp only [hwPushCell]
  split
  · next hz => simp [h1]; omega
  · simp [h1]; omega

lemma hwContent_inv (st : HeaderState)
    (h1 : (st.row.map (fun c => c.colspan)).sum = st.column_last)
    (h2 : st.column_last ≤ st.column) :
    ((hwContent st).row.map (fun c => c.colspan)).sum = (hwContent st).column_last
    ∧ (hwContent st).column_last ≤ (hwContent st).column := by
  exact ⟨h1, by simp [hwContent]; omega⟩

lemma hwColumnStart_inv (st : HeaderState)
    (h1 : (st.row.map (fun c => c.colspan)).sum = st.column_last)
    (h2 : st.column_last ≤ st.column) :
    ((hwColumnStart st).row.map (fun c => c.colspan)).sum = (hwColumnStart st).column_last
    ∧ (hwColumnStart st).column_last ≤ (hwColumnStart st).column := by
  simp only [hwColumnStart]
  split
  · exact hwPushCell_inv "" st h1 h2
  · exact ⟨h1, h2⟩

lemma hwColumnEnd_inv (lbl : String) (st : HeaderState)
    (h1 : (st.row.map (fun c => c.colspan)).sum = st.column_last)
    (h2 : st.column_last ≤ st.column) :
    ((hwColumnEnd lbl st).row.map (fun c => c.colspan)).sum = (hwColumnEnd lbl st).column_last
    ∧ (hwColumnEnd lbl st).column_last ≤ (hwColumnEnd lbl st).column := by
  simp only [hwColumnEnd]
  split
  · exact hwPushCell_inv lbl { st with depth := st.depth - 1 } h1 h2
  · exact ⟨h1, h2⟩

mutual
lemma hwRun1_inv : ∀ (s : Schema) (st : HeaderState),
    (st.row.map (fun c => c.colspan)).sum = st.column_last → st.column_last ≤ st.column →
    ((hwRun1 s st).row.map (fun c => c.colspan)).sum = (hwRun1 s st).column_last
    ∧ (hwRun1 s st).column_last ≤ (hwRun1 s st).column
  | .leaf _, st, h1, h2 => hwContent_inv st h1 h2
  | .group h cs, st, h1, h2 => by
      have hs := hwColumnStart_inv st h1 h2
      have hl := hwRunL_inv cs (hwColumnStart st) hs.1 hs.2
      exact hwColumnEnd_inv h (hwRunL cs (hwColumnStart st)) hl.1 hl.2
lemma hwRunL_inv : ∀ (ss : List Schema) (st : HeaderState),
    (st.row.map (fun c => c.colspan)).sum = st.column_last → st.column_last ≤ st.column →
    ((hwRunL ss st).row.map (fun c => c.colspan)).sum = (hwRunL ss st).column_last
    ∧ (hwRunL ss st).column_last ≤ (hwRunL ss st).column
  | [], _, h1, h2 => ⟨h1, h2⟩
  | s :: ss, st, h1, h2 => by
      have h := hwRun1_inv s st h1 h2
      exact hwRunL_inv ss (hwRun1 s st) h.1 h.2
end

lemma hwPushCell_nz (lbl : String) (st : HeaderState)
    (h : ∀ x ∈ st.row, x.colspan ≠ 0) :
    ∀ x ∈ (hwPushCell lbl st).row, x.colspan ≠ 0 := by
  intro x hx
  simp only [hwPushCell] at hx
  rcases List.mem_append.1 hx with hx | hx
  · exact h x hx
  · revert hx; split
    · simp
    · next hz => intro hx; simp at hx; subst hx; exact hz

mutual
lemma hwRun1_nz : ∀ (s : Schema) (st : HeaderState),
    (∀ x ∈ st.row, x.colspan ≠ 0) → ∀ x ∈ (hwRun1 s st).row, x.colspan ≠ 0
  | .leaf _, st, h => h
  | .group lbl cs, st, h => by
      have hs : ∀ x ∈ (hwColumnStart st).row, x.colspan ≠ 0 := by
        simp only [hwColumnStart]
        split
        · exact hwPushCell_nz "" st h
        · exact h
      have hl := hwRunL_nz cs (hwColumnStart st) hs
      simp only [hwRun1, hwColumnEnd]
      split
      · exact hwPushCell_nz lbl _ hl
      · exact hl
lemma hwRunL_nz : ∀ (ss : List Schema) (st : HeaderState),
    (∀ x ∈ st.row, x.colspan ≠ 0) → ∀ x ∈ (hwRunL ss st).row, x.colspan ≠ 0
  | [], _, h => h
  | s :: ss, st, h => hwRunL_nz ss (hwRun1 s st) (hwRun1_nz s st h)
end

lemma headerRow_nz (ss : List Schema) (t : Nat) :
    ∀ x ∈ headerRow ss t, x.colspan ≠ 0 := by
  unfold headerRow
  exact hwPushCell_nz "" _ (hwRunL_nz ss _ (by simp))

lemma headerRow_span_sum (ss : List Schema) (t : Nat) :
    ((headerRow ss t).map (fun c => c.colspan)).sum = leafCountL ss := by
  unfold headerRow
  have h := hwRunL_inv ss ⟨0, t, 0, 0, []⟩ (by simp) (by simp)
  have hp := hwPushCell_inv "" (hwRunL ss ⟨0, t, 0, 0, []⟩) h.1 h.2
  rw [hp.1]
  have hcl : (hwPushCell "" (hwRunL ss ⟨0, t, 0, 0, []⟩)).column_last
      = (hwRunL ss ⟨0, t, 0, 0, []⟩).column := rfl
  rw [hcl, hwRunL_column ss ⟨0, t, 0, 0, []⟩]
  simp

lemma pushRow_pushSep_rows (g : GridBuilder) (cs : List CellEntry) :
    (pushSeparator (pushRow g cs)).rows
      = g.rows ++ [⟨cs.filter (fun c => c.colspan ≠ 0), true⟩] := by
  simp only [pushSeparator, pushRow]
  exact setLastSeparator_append_one g.rows _

lemma header_fold_rows (ss : List Schema) (ts : List Nat) (g : GridBuilder) :
    ((ts.foldl (fun g t => pushSeparator (pushRow g (headerRow ss t))) g).rows)
      = g.rows ++ ts.map (fun t =>
          ⟨(headerRow ss t).filter (fun c => c.colspan ≠ 0), true⟩) := by
  induction ts generalizing g with
  | nil => simp
  | cons t ts ih => rw [List.foldl_cons, ih, pushRow_pushSep_rows]; simp

lemma headerRow_filter (ss : List Schema) (t : Nat) :
    (headerRow ss t).filter (fun c => c.colspan ≠ 0) = headerRow ss t := by
  rw [List.filter_eq_self]
  intro a ha
  simpa using headerRow_nz ss t a ha

lemma setLastColumnEnd_length : ∀ l : List ColumnStyle,
    (setLastColumnEnd l).length = l.length
  | [] => rfl
  | [_] => rfl
  | s :: s' :: l => by
      simp only [setLastColumnEnd, List.length_cons]
      simpa using setLastColumnEnd_length (s' :: l)

/-- **C5** (counterexample): grid construction from the doc-example schema
`{a; b{1; 2}}` puts the outermost (depth 0) group labels `"a"`, `"b"` in the
FIRST header row, and the last header row (`depth_max − 1 = 1`) holds the
leaf headers `"1"`, `"2"` with no `"b"`.  The claim's "depth 0 … is rendered
last, closest to the body" is therefore false: rows are emitted for
`target = 0, 1, …` in that order and target 0 carries the outermost labels. -/
theorem header_depth0_rendered_first_cex :
    ((newWithHeader [.group "a" [.leaf false],
        .group "b" [.group "1" [.leaf false], .group "2" [.leaf false]]]).rows.map
      (fun r => (r.cells.map (fun c => (c.s, c.colspan)), r.has_separator)))
      = [([("a", 1), ("b", 2)], true), ([("", 1), ("1", 1), ("2", 1)], true)]
    ∧ depthMax [.group "a" [.leaf false],
        .group "b" [.group "1" [.leaf false], .group "2" [.leaf false]]] = 2
    ∧ "b" ∉ (((newWithHeader [.group "a" [.leaf false],
        .group "b" [.group "1" [.leaf false], .group "2" [.leaf false]]]).rows.getD 1
          ⟨[], false⟩).cells.map (fun c => c.s)) := by
  refine ⟨?_, by decide, by decide⟩
  decide

/-- **C5** (amended): grid construction from a schema emits exactly
`depth_max` header rows, one per target depth in increasing target order —
target 0 (the outermost group level) FIRST, target `depth_max − 1` last,
closest to the body — each followed by a forced separator (so one separator
remains before the body); within a header row, every emitted cell's colspan
is the number of leaf columns consumed since the previous emission, so the
colspans of each header row sum to the schema's leaf-column count. -/
theorem header_rows_emitted (ss : List Schema) :
    (newWithHeader ss).rows
      = (List.range (depthMax ss)).map (fun t => ⟨headerRow ss t, true⟩)
    ∧ ∀ t, ((headerRow ss t).map (fun c => c.colspan)).sum = leafCountL ss := by
  constructor
  · show ((List.range (depthMax ss)).foldl
        (fun g t => pushSeparator (pushRow g (headerRow ss t)))
        { GridBuilder.new with column_styles := layoutStyles ss }).rows = _
    rw [header_fold_rows]
    simp only [GridBuilder.new, List.nil_append]
    exact List.map_congr_left (fun t _ => by rw [headerRow_filter])
  · exact headerRow_span_sum ss

/-- **C9** (counterexample): in the schema `{a; g{}}` the zero-leaf group
`g` contributes no cell at all to the (single) header row: its emission has
colspan 0 and `push_with_colspan` drops colspan-0 cells.  The claim's
"still consumes one header slot per depth level, drawn as an empty cell in
each header row" is therefore false — the header row is exactly `[("a",1)]`. -/
theorem empty_group_draws_no_cell_cex :
    ((newWithHeader [.group "a" [.leaf false], .group "g" []]).rows.map
      (fun r => (r.cells.map (fun c => (c.s, c.colspan)), r.has_separator)))
      = [([("a", 1)], true)]
    ∧ depthMax [.group "a" [.leaf false], .group "g" []] = 1 := by
  exact ⟨by decide, by decide⟩

/-- **C9** (amended): a group declared with zero leaf columns consumes zero
columns in every sink and is drawn as nothing: in the header sink (from any
state whose pending leaves are flushed, `column_last = column`) it leaves
the state — row, column count and all — unchanged; in the body sink it
pushes no cell; in the layout sink it adds no column style and restores the
depth; its leaf count is 0.  Column counting therefore stays synchronized
across the layout, header, and body sinks. -/
theorem empty_group_consumes_nothing (h : String) (st : HeaderState)
    (hcl : st.column_last = st.column) (gl : GridLayout) (row : List Nat) :
    hwRun1 (.group h []) st = st
    ∧ bwRun1 (.group h []) row = row
    ∧ (glRun1 (.group h []) gl).styles.length = gl.styles.length
    ∧ (glRun1 (.group h []) gl).depth = gl.depth
    ∧ leafCount1 (.group h []) = 0 := by
  refine ⟨?_, rfl, ?_, ?_, rfl⟩
  · cases st with
    | mk depth target column column_last row =>
        simp only at hcl
        subst hcl
        simp [hwRun1, hwRunL, hwColumnStart, hwColumnEnd, hwPushCell]
  · simp [glRun1, glRunL, glColumnStart, glColumnEnd, setLastColumnEnd_length]
  · simp [glRun1, glRunL, glColumnStart, glColumnEnd]

/-- Witness for `empty_group_consumes_nothing` at concrete inputs. -/
theorem empty_group_consumes_nothing_witness :
    hwRun1 (.group "g" []) ⟨0, 0, 2, 2, [⟨"a", 1, 2⟩]⟩ = ⟨0, 0, 2, 2, [⟨"a", 1, 2⟩]⟩
    ∧ bwRun1 (.group "g" []) [1, 1] = [1, 1]
    ∧ (glRun1 (.group "g" []) ⟨0, 0, [⟨false, false⟩]⟩).styles.length = 1
    ∧ (glRun1 (.group "g" []) ⟨0, 0, [⟨false, false⟩]⟩).depth = 0
    ∧ leafCount1 (.group "g" []) = 0 := by
  have h := empty_group_consumes_nothing "g" ⟨0, 0, 2, 2, [⟨"a", 1, 2⟩]⟩ rfl
    ⟨0, 0, [⟨false, false⟩]⟩ [1, 1]
  exact h

/-! ### List helpers for the width vectors -/

lemma getD_set_self (ws : List Nat) (c v : Nat) (hc : c < ws.length) :
    (ws.set c v).getD c 0 = v := by
  rw [List.getD_eq_getElem?_getD, List.getElem?_set_self hc]
  rfl

lemma getD_set_other (ws : List Nat) (c v i : Nat) (h : i ≠ c) :
    (ws.set c v).getD i 0 = ws.getD i 0 := by
  rw [List.getD_eq_getElem?_getD, List.getD_eq_getElem?_getD,
    List.getElem?_set_ne (fun hc => h hc.symm)]

lemma getD_set_ge (ws : List Nat) (c v : Nat) (hv : ws.getD c 0 ≤ v) (i : Nat) :
    ws.getD i 0 ≤ (ws.set c v).getD i 0 := by
  by_cases hci : i = c
  · subst hci
    by_cases hlt : i < ws.length
    · rw [getD_set_self ws i v hlt]; exact hv
    · rw [List.set_eq_of_length_le (Nat.le_of_not_lt hlt)]
  · rw [getD_set_other ws c v i hci]

lemma foldl_add_two (l : List Nat) (fA fB : Nat → Nat) (a : Nat) :
    l.foldl (fun acc i => acc + fA i + fB i) a = a + (l.map (fun i => fA i + fB i)).sum := by
  induction l generalizing a with
  | nil => simp
  | cons x l ih => simp [ih]; omega

lemma getWidth_eq_sum (g : GridBuilder) (ws : List Nat) (col cs : Nat) :
    g.getWidth ws col cs
      = ws.getD col 0 + ((List.range' (col + 1) (cs - 1)).map
          (fun i => (if g.hasBorder i then 3 else 0) + ws.getD i 0)).sum := by
  unfold GridBuilder.getWidth
  exact foldl_add_two _ _ _ _

lemma sum_map_pad_mono (l : List Nat) (pad : Nat → Nat) (ws ws' : List Nat)
    (h : ∀ i, ws.getD i 0 ≤ ws'.getD i 0) :
    (l.map (fun i => pad i + ws.getD i 0)).sum ≤ (l.map (fun i => pad i + ws'.getD i 0)).sum := by
  induction l with
  | nil => simp
  | cons x l ih => simp only [List.map_cons, List.sum_cons]; have := h x; omega

lemma getWidth_mono (g : GridBuilder) (ws ws' : List Nat) (col cs : Nat)
    (h : ∀ i, ws.getD i 0 ≤ ws'.getD i 0) :
    g.getWidth ws col cs ≤ g.getWidth ws' col cs := by
  rw [getWidth_eq_sum, getWidth_eq_sum]
  have h1 := h col
  have h2 := sum_map_pad_mono (List.range' (col + 1) (cs - 1))
    (fun i => if g.hasBorder i then 3 else 0) ws ws' h
  beta_reduce at h2
  omega

lemma sum_map_getD_set (ws : List Nat) (c ew : Nat) (pad : Nat → Nat) :
    ∀ l : List Nat, l.Nodup → c ∈ l → c < ws.length →
    (l.map (fun i => pad i + (ws.set c (ws.getD c 0 + ew)).getD i 0)).sum
      = (l.map (fun i => pad i + ws.getD i 0)).sum + ew
  | [], _, hc, _ => by simp at hc
  | x :: l, hnd, hc, hlen => by
      rcases List.mem_cons.1 hc with hx | hx
      · subst hx
        have hnotin : c ∉ l := (List.nodup_cons.1 hnd).1
        have heq : l.map (fun i => pad i + (ws.set c (ws.getD c 0 + ew)).getD i 0)
            = l.map (fun i => pad i + ws.getD i 0) :=
          List.map_congr_left (fun i hi => by
            rw [getD_set_other ws c _ i (fun h => hnotin (h ▸ hi))])
        simp only [List.map_cons, List.sum_cons, heq, getD_set_self ws c _ hlen]
        omega
      · have hxc : x ≠ c := by
          rintro rfl
          exact (List.nodup_cons.1 hnd).1 hx
        have ih := sum_map_getD_set ws c ew pad l (List.nodup_cons.1 hnd).2 hx hlen
        simp only [List.map_cons, List.sum_cons, ih, getD_set_other ws c _ x hxc]
        omega

lemma sum_map_getD_set_not_mem (ws : List Nat) (c ew : Nat) (pad : Nat → Nat)
    (l : List Nat) (hc : c ∉ l) :
    (l.map (fun i => pad i + (ws.set c (ws.getD c 0 + ew)).getD i 0)).sum
      = (l.map (fun i => pad i + ws.getD i 0)).sum := by
  refine congrArg _ (List.map_congr_left (fun i hi => ?_))
  rw [getD_set_other ws c _ i (fun h => hc (h ▸ hi))]

lemma getWidth_set (g : GridBuilder) (ws : List Nat) (col cs c ew : Nat)
    (h1 : col ≤ c) (h2 : c < col + cs) (h3 : c < ws.length) :
    g.getWidth (ws.set c (ws.getD c 0 + ew)) col cs = g.getWidth ws col cs + ew := by
  rw [getWidth_eq_sum, getWidth_eq_sum]
  by_cases hcc : c = col
  · subst hcc
    have hnotin : c ∉ List.range' (c + 1) (cs - 1) := by
      intro hmem
      have := List.mem_range'_1.1 hmem
      omega
    rw [sum_map_getD_set_not_mem ws c ew _ _ hnotin, getD_set_self ws c _ h3]
    omega
  · have hmem : c ∈ List.range' (col + 1) (cs - 1) := by
      rw [List.mem_range'_1]
      omega
    rw [sum_map_getD_set ws c ew _ _ (List.nodup_range' _ _) hmem h3,
      getD_set_other ws c _ col (fun h => hcc h.symm)]
    omega

lemma getWidth_one (g : GridBuilder) (ws : List Nat) (col : Nat) :
    g.getWidth ws col 1 = ws.getD col 0 := by
  rw [getWidth_eq_sum]
  simp

/-! ### The distribution loop -/

lemma ceil_div_le_self (a c : Nat) (hc : 1 ≤ c) : (a + c - 1) / c ≤ a := by
  rw [Nat.div_le_iff_le_mul_add_pred (by omega)]
  have := Nat.le_mul_of_pos_left a (show 0 < c by omega)
  omega

lemma expandWidth_le (bw minW : Nat) (nextW : Option Nat) (count wsum : Nat)
    (hc : 1 ≤ count) :
    expandWidth bw minW nextW count wsum ≤ bw - wsum := by
  have h := ceil_div_le_self (bw - wsum) count hc
  unfold expandWidth
  cases nextW <;> simp <;> omega

lemma expandWidth_pos (bw minW : Nat) (nextW : Option Nat) (count wsum : Nat)
    (hc : 1 ≤ count) (hlt : wsum < bw)
    (hcap : ∀ nw, nextW = some nw → minW < nw) :
    1 ≤ expandWidth bw minW nextW count wsum := by
  have h1 : 1 ≤ (bw - wsum + count - 1) / count := by
    rw [Nat.one_le_div_iff (by omega)]
    omega
  unfold expandWidth
  cases nextW with
  | none => simpa using h1
  | some nw => have := hcap nw rfl; simp; omega

lemma distribute_wsum_le (bw minW : Nat) (nextW : Option Nat) :
    ∀ (cols : List Nat) (ws : List Nat) (wsum : Nat), wsum ≤ bw →
      (distribute bw minW nextW cols (ws, wsum)).2 ≤ bw
  | [], _, _, h => h
  | c :: rest, ws, wsum, h => by
      rw [distribute]
      have hle := expandWidth_le bw minW nextW (rest.length + 1) wsum (by omega)
      exact distribute_wsum_le bw minW nextW rest _ _ (by omega)

lemma distribute_wsum_ge (bw minW : Nat) (nextW : Option Nat) :
    ∀ (cols : List Nat) (ws : List Nat) (wsum : Nat),
      wsum ≤ (distribute bw minW nextW cols (ws, wsum)).2
  | [], _, _ => le_refl _
  | c :: rest, ws, wsum => by
      rw [distribute]
      have := distribute_wsum_ge bw minW nextW rest
        (ws.set c (ws.getD c 0 + expandWidth bw minW nextW (rest.length + 1) wsum))
        (wsum + expandWidth bw minW nextW (rest.length + 1) wsum)
      omega

lemma distribute_mono (bw minW : Nat) (nextW : Option Nat) :
    ∀ (cols : List Nat) (ws : List Nat) (wsum : Nat) (i : Nat),
      ws.getD i 0 ≤ (distribute bw minW nextW cols (ws, wsum)).1.getD i 0
  | [], _, _, _ => le_refl _
  | c :: rest, ws, wsum, i => by
      rw [distribute]
      exact le_trans (getD_set_ge ws c _ (by omega) i)
        (distribute_mono bw minW nextW rest _ _ i)

lemma distribute_len (bw minW : Nat) (nextW : Option Nat) :
    ∀ (cols : List Nat) (ws : List Nat) (wsum : Nat),
      (distribute bw minW nextW cols (ws, wsum)).1.length = ws.length
  | [], _, _ => rfl
  | c :: rest, ws, wsum => by
      rw [distribute]
      rw [distribute_len bw minW nextW rest _ _, List.length_set]

lemma distribute_untouched (bw minW : Nat) (nextW : Option Nat) :
    ∀ (cols : List Nat) (ws : List Nat) (wsum : Nat) (j : Nat), j ∉ cols →
      (distribute bw minW nextW cols (ws, wsum)).1.getD j 0 = ws.getD j 0
  | [], _, _, _, _ => rfl
  | c :: rest, ws, wsum, j, hj => by
      rw [distribute]
      rw [distribute_untouched bw minW nextW rest _ _ j (fun h => hj (List.mem_cons_of_mem _ h)),
        getD_set_other ws c _ j (fun h => hj (h ▸ List.mem_cons_self c rest))]

lemma distribute_getWidth (bw minW : Nat) (nextW : Option Nat) (g : GridBuilder)
    (col cs : Nat) :
    ∀ (cols : List Nat) (ws : List Nat) (wsum : Nat),
      (∀ c ∈ cols, col ≤ c ∧ c < col + cs ∧ c < ws.length) →
      wsum = g.getWidth ws col cs →
      (distribute bw minW nextW cols (ws, wsum)).2
        = g.getWidth (distribute bw minW nextW cols (ws, wsum)).1 col cs
  | [], ws, wsum, _, hw => hw
  | c :: rest, ws, wsum, hcols, hw => by
      rw [distribute]
      have hc := hcols c (List.mem_cons_self c rest)
      refine distribute_getWidth bw minW nextW g col cs rest _ _ ?_ ?_
      · intro x hx
        have := hcols x (List.mem_cons_of_mem _ hx)
        simpa [List.length_set] using this
      · rw [getWidth_set g ws col cs c _ hc.1 hc.2.1 hc.2.2, hw]

lemma distribute_wsum_lt (bw minW : Nat) (nextW : Option Nat)
    (c : Nat) (rest : List Nat) (ws : List Nat) (wsum : Nat)
    (hlt : wsum < bw) (hcap : ∀ nw, nextW = some nw → minW < nw) :
    wsum < (distribute bw minW nextW (c :: rest) (ws, wsum)).2 := by
  rw [distribute]
  have h1 := expandWidth_pos bw minW nextW (rest.length + 1) wsum (by omega) hlt hcap
  have h2 := distribute_wsum_ge bw minW nextW rest
    (ws.set c (ws.getD c 0 + expandWidth bw minW nextW (rest.length + 1) wsum))
    (wsum + expandWidth bw minW nextW (rest.length + 1) wsum)
  omega

lemma distribute_head_lt (bw minW : Nat) (nextW : Option Nat)
    (c : Nat) (rest : List Nat) (ws : List Nat) (wsum : Nat)
    (hc : c < ws.length) (hlt : wsum < bw)
    (hcap : ∀ nw, nextW = some nw → minW < nw) :
    ws.getD c 0 < (distribute bw minW nextW (c :: rest) (ws, wsum)).1.getD c 0 := by
  rw [distribute]
  have h1 := expandWidth_pos bw minW nextW (rest.length + 1) wsum (by omega) hlt hcap
  have h2 := distribute_mono bw minW nextW rest
    (ws.set c (ws.getD c 0 + expandWidth bw minW nextW (rest.length + 1) wsum))
    (wsum + expandWidth bw minW nextW (rest.length + 1) wsum) c
  rw [getD_set_self ws c _ hc] at h2
  omega

/-! ### The minimum scan -/

lemma scanStep_inv (g : GridBuilder) (bstretch : Nat) (ws : List Nat) (start : Nat)
    (P : Nat → Prop) (s : ScanState) (x : Nat)
    (hx : P x ∨ ¬(bstretch = 0 ∨ (g.columnStyle x).stretch))
    (h1 : s.cols ≠ [])
    (h2 : ∀ nw, s.nextW = some nw → s.minW < nw)
    (h3 : ∀ c ∈ s.cols, (c = start ∨ P c) ∧ ws.getD c 0 = s.minW) :
    (scanStep g bstretch ws s x).cols ≠ []
    ∧ (∀ nw, (scanStep g bstretch ws s x).nextW = some nw
        → (scanStep g bstretch ws s x).minW < nw)
    ∧ (∀ c ∈ (scanStep g bstretch ws s x).cols,
        (c = start ∨ P c) ∧ ws.getD c 0 = (scanStep g bstretch ws s x).minW) := by
  unfold scanStep
  by_cases helig : bstretch = 0 ∨ (g.columnStyle x).stretch
  · rw [if_pos helig]
    have hPx : P x := hx.resolve_right (fun h => h helig)
    by_cases hlt : ws.getD x 0 < s.minW
    · simp only [if_pos hlt, if_true]
      refine ⟨by simp, ?_, ?_⟩
      · intro nw hnw
        simp only [Option.some.injEq] at hnw
        omega
      · intro c hc
        simp only [List.nil_append, List.mem_singleton] at hc
        subst hc
        exact ⟨Or.inr hPx, rfl⟩
    · simp only [if_neg hlt]
      by_cases heq : ws.getD x 0 = s.minW
      · rw [if_pos heq]
        refine ⟨by simp, h2, ?_⟩
        intro c hc
        rcases List.mem_append.1 hc with hc | hc
        · exact h3 c hc
        · simp only [List.mem_singleton] at hc
          subst hc
          exact ⟨Or.inr hPx, heq⟩
      · rw [if_neg heq]
        exact ⟨h1, h2, h3⟩
  · rw [if_neg helig]
    exact ⟨h1, h2, h3⟩

lemma scan_fold_inv (g : GridBuilder) (bstretch : Nat) (ws : List Nat) (start : Nat)
    (P : Nat → Prop) :
    ∀ (l : List Nat) (s : ScanState),
      (∀ x ∈ l, P x ∨ ¬(bstretch = 0 ∨ (g.columnStyle x).stretch)) →
      s.cols ≠ [] →
      (∀ nw, s.nextW = some nw → s.minW < nw) →
      (∀ c ∈ s.cols, (c = start ∨ P c) ∧ ws.getD c 0 = s.minW) →
      (l.foldl (scanStep g bstretch ws) s).cols ≠ []
      ∧ (∀ nw, (l.foldl (scanStep g bstretch ws) s).nextW = some nw
          → (l.foldl (scanStep g bstretch ws) s).minW < nw)
      ∧ (∀ c ∈ (l.foldl (scanStep g bstretch ws) s).cols,
          (c = start ∨ P c) ∧ ws.getD c 0 = (l.foldl (scanStep g bstretch ws) s).minW)
  | [], s, _, h1, h2, h3 => ⟨h1, h2, h3⟩
  | x :: l, s, hl, h1, h2, h3 => by
      rw [List.foldl_cons]
      have hstep := scanStep_inv g bstretch ws start P s x
        (hl x (List.mem_cons_self x l)) h1 h2 h3
      exact scan_fold_inv g bstretch ws start P l (scanStep g bstretch ws s x)
        (fun y hy => hl y (List.mem_cons_of_mem _ hy)) hstep.1 hstep.2.1 hstep.2.2

lemma scanMin_spec (g : GridBuilder) (b : Block) (start : Nat) (ws : List Nat) :
    (scanMin g b start ws).cols ≠ []
    ∧ (∀ nw, (scanMin g b start ws).nextW = some nw → (scanMin g b start ws).minW < nw)
    ∧ (∀ c ∈ (scanMin g b start ws).cols,
        (c = start ∨ (start + 1 ≤ c ∧ c < b.column + b.colspan
            ∧ (b.stretch = 0 ∨ (g.columnStyle c).stretch)))
        ∧ ws.getD c 0 = (scanMin g b start ws).minW) := by
  have h := scan_fold_inv g b.stretch ws start
    (fun c => start + 1 ≤ c ∧ c < b.column + b.colspan
        ∧ (b.stretch = 0 ∨ (g.columnStyle c).stretch))
    (List.range' (start + 1) (b.column + b.colspan - (start + 1)))
    ⟨[start], ws.getD start 0, none⟩
    (fun x hx => by
      have hb := List.mem_range'_1.1 hx
      by_cases helig : b.stretch = 0 ∨ (g.columnStyle x).stretch
      · exact Or.inl ⟨by omega, by omega, helig⟩
      · exact Or.inr helig)
    (by simp)
    (by intro nw hnw; simp at hnw)
    (by
      intro c hc
      simp only [List.mem_singleton] at hc
      subst hc
      exact ⟨Or.inl rfl, rfl⟩)
  exact h

/-! ### The while loop -/

lemma expandLoop_mono (g : GridBuilder) (b : Block) (start : Nat) :
    ∀ (fuel : Nat) (p : List Nat × Nat) (i : Nat),
      p.1.getD i 0 ≤ (expandLoop g b start fuel p).1.getD i 0
  | 0, _, _ => le_refl _
  | fuel + 1, (ws, wsum), i => by
      rw [expandLoop]
      split
      · exact le_trans
          (distribute_mono b.width (scanMin g b start ws).minW (scanMin g b start ws).nextW
            (scanMin g b start ws).cols ws wsum i)
          (expandLoop_mono g b start fuel _ i)
      · exact le_refl _

lemma expandLoop_len (g : GridBuilder) (b : Block) (start : Nat) :
    ∀ (fuel : Nat) (p : List Nat × Nat),
      (expandLoop g b start fuel p).1.length = p.1.length
  | 0, _ => rfl
  | fuel + 1, (ws, wsum) => by
      rw [expandLoop]
      split
      · rw [expandLoop_len g b start fuel _]
        exact distribute_len b.width _ _ _ ws wsum
      · rfl

lemma expandLoop_post (g : GridBuilder) (b : Block) (start : Nat) :
    ∀ (fuel : Nat) (p : List Nat × Nat), b.width ≤ p.2 + fuel →
      b.width ≤ (expandLoop g b start fuel p).2
  | 0, p, h => by simpa using h
  | fuel + 1, (ws, wsum), h => by
      rw [expandLoop]
      split
      · next hlt =>
          have hscan := scanMin_spec g b start ws
          obtain ⟨c, rest, hcr⟩ : ∃ c rest, (scanMin g b start ws).cols = c :: rest := by
            cases hcols : (scanMin g b start ws).cols with
            | nil => exact absurd hcols hscan.1
            | cons c rest => exact ⟨c, rest, rfl⟩
          refine expandLoop_post g b start fuel _ ?_
          have hgt := distribute_wsum_lt b.width (scanMin g b start ws).minW
            (scanMin g b start ws).nextW c rest ws wsum hlt hscan.2.1
          rw [← hcr] at hgt
          omega
      · next hge => simp at hge ⊢; omega

lemma expandLoop_getWidth (g : GridBuilder) (b : Block) (start : Nat)
    (hst : b.column ≤ start ∧ start < b.column + b.colspan) :
    ∀ (fuel : Nat) (p : List Nat × Nat),
      b.column + b.colspan ≤ p.1.length →
      p.2 = g.getWidth p.1 b.column b.colspan →
      (expandLoop g b start fuel p).2
        = g.getWidth (expandLoop g b start fuel p).1 b.column b.colspan
  | 0, p, _, hw => hw
  | fuel + 1, (ws, wsum), hlen, hw => by
      have hlen' : b.column + b.colspan ≤ ws.length := hlen
      rw [expandLoop]
      split
      · refine expandLoop_getWidth g b start hst fuel _ ?_ ?_
        · rw [distribute_len]
          exact hlen
        · refine distribute_getWidth b.width _ _ g b.column b.colspan _ ws wsum ?_ hw
          intro c hc
          have hmem := (scanMin_spec g b start ws).2.2 c hc
          rcases hmem.1 with hc' | hc'
          · exact ⟨hc' ▸ hst.1, hc' ▸ hst.2, by rw [hc']; omega⟩
          · exact ⟨by omega, hc'.2.1, by omega⟩
      · exact hw

lemma expandLoop_untouched (g : GridBuilder) (b : Block) (start : Nat) (j : Nat)
    (hj1 : j ≠ start)
    (hj2 : (b.stretch = 0 ∨ (g.columnStyle j).stretch)
        → ¬(start + 1 ≤ j ∧ j < b.column + b.colspan)) :
    ∀ (fuel : Nat) (p : List Nat × Nat),
      (expandLoop g b start fuel p).1.getD j 0 = p.1.getD j 0
  | 0, _ => rfl
  | fuel + 1, (ws, wsum) => by
      rw [expandLoop]
      split
      · rw [expandLoop_untouched g b start j hj1 hj2 fuel _]
        refine distribute_untouched b.width _ _ _ ws wsum j ?_
        intro hmem
        have h := (scanMin_spec g b start ws).2.2 j hmem
        rcases h.1 with h | h
        · exact hj1 h
        · exact hj2 h.2.2 ⟨h.1, h.2.1⟩
      · rfl

/-! ### Processing one block -/

lemma processBlock_eq (g : GridBuilder) (ws : List Nat) (b : Block) :
    processBlock g ws b
      = (expandLoop g b (findStart g b) b.width
          (ws, g.getWidth ws b.column b.colspan)).1 := rfl

lemma findStart_mem (g : GridBuilder) (b : Block) (hcs : 1 ≤ b.colspan) :
    b.column ≤ findStart g b ∧ findStart g b < b.column + b.colspan := by
  unfold findStart
  split
  · omega
  · cases hfind : (List.range' b.column b.colspan).find?
        (fun c => (g.columnStyle c).stretch) with
    | none => simp [hfind]; omega
    | some c =>
        have hmem := List.mem_range'_1.1 (List.mem_of_find?_eq_some hfind)
        simp only [hfind, Option.getD_some]
        omega

lemma find?_range'_first (p : Nat → Bool) :
    ∀ (n s c : Nat), (List.range' s n).find? p = some c →
      p c = true ∧ s ≤ c ∧ c < s + n ∧ ∀ x, s ≤ x → x < c → p x = false
  | 0, s, c, h => by simp at h
  | n + 1, s, c, h => by
      rw [List.range'_succ, List.find?_cons] at h
      cases hps : p s with
      | true =>
          rw [hps] at h
          simp only [Option.some.injEq] at h
          subst h
          exact ⟨hps, le_refl _, by omega, fun x hx1 hx2 => by omega⟩
      | false =>
          rw [hps] at h
          have ih := find?_range'_first p n (s + 1) c h
          refine ⟨ih.1, by omega, by omega, ?_⟩
          intro x hx1 hx2
          rcases Nat.eq_or_lt_of_le hx1 with hx | hx
          · rw [← hx]; exact hps
          · exact ih.2.2.2 x hx hx2

lemma findStart_first_stretch (g : GridBuilder) (b : Block) (hs : b.stretch ≠ 0)
    (hsc : b.stretch = g.stretchCount b.column b.colspan) :
    (g.columnStyle (findStart g b)).stretch = true
    ∧ b.column ≤ findStart g b ∧ findStart g b < b.column + b.colspan
    ∧ ∀ x, b.column ≤ x → x < findStart g b → (g.columnStyle x).stretch = false := by
  have hex : ∃ x ∈ List.range' b.column b.colspan, (g.columnStyle x).stretch = true := by
    by_contra hno
    push_neg at hno
    have : g.stretchCount b.column b.colspan = 0 := by
      unfold GridBuilder.stretchCount
      rw [List.length_eq_zero, List.filter_eq_nil_iff]
      intro a ha
      simp [hno a ha]
    omega
  have hsome : ((List.range' b.column b.colspan).find?
      (fun c => (g.columnStyle c).stretch)).isSome = true :=
    List.find?_isSome.2 hex
  cases hfind : (List.range' b.column b.colspan).find?
      (fun c => (g.columnStyle c).stretch) with
  | none => rw [hfind] at hsome; simp at hsome
  | some c =>
      have hfs : findStart g b = c := by
        unfold findStart
        rw [if_neg hs, hfind]
        rfl
      have h := find?_range'_first _ _ _ _ hfind
      rw [hfs]
      exact ⟨h.1, h.2.1, by have := h.2.2.1; omega, h.2.2.2⟩

lemma processBlock_mono (g : GridBuilder) (ws : List Nat) (b : Block) (i : Nat) :
    ws.getD i 0 ≤ (processBlock g ws b).getD i 0 := by
  rw [processBlock_eq]
  exact expandLoop_mono g b _ b.width (ws, _) i

lemma processBlock_len (g : GridBuilder) (ws : List Nat) (b : Block) :
    (processBlock g ws b).length = ws.length := by
  rw [processBlock_eq]
  exact expandLoop_len g b _ b.width (ws, _)

lemma processBlock_post (g : GridBuilder) (ws : List Nat) (b : Block)
    (hcs : 1 ≤ b.colspan) (hlen : b.column + b.colspan ≤ ws.length) :
    b.width ≤ g.getWidth (processBlock g ws b) b.column b.colspan := by
  rw [processBlock_eq]
  have hst := findStart_mem g b hcs
  have h1 := expandLoop_post g b (findStart g b) b.width
    (ws, g.getWidth ws b.column b.colspan) (by omega)
  have h2 := expandLoop_getWidth g b (findStart g b) hst b.width
    (ws, g.getWidth ws b.column b.colspan) hlen rfl
  rw [h2] at h1
  exact h1

/-- **C2**: when a colspan>1 block spans at least one stretch-flagged column
(`b.stretch ≠ 0`, where `b.stretch` is the span's stretch count as
`get_widths` computes it), the distribution starts at the block's first
stretch-flagged column (every spanned column before it is non-stretch) and
touches only stretch-flagged columns of the span: every column that is
non-stretch, or outside the block's span, keeps exactly the width it had
before the block was processed. -/
theorem stretch_only_distribution (g : GridBuilder) (b : Block) (ws : List Nat)
    (hs : b.stretch ≠ 0) (hsc : b.stretch = g.stretchCount b.column b.colspan) :
    (g.columnStyle (findStart g b)).stretch = true
    ∧ (∀ x, b.column ≤ x → x < findStart g b → (g.columnStyle x).stretch = false)
    ∧ ∀ j, ((g.columnStyle j).stretch = false ∨ j < b.column ∨ b.column + b.colspan ≤ j) →
        (processBlock g ws b).getD j 0 = ws.getD j 0 := by
  have hfs := findStart_first_stretch g b hs hsc
  refine ⟨hfs.1, hfs.2.2.2, ?_⟩
  intro j hj
  rw [processBlock_eq]
  refine expandLoop_untouched g b (findStart g b) j ?_ ?_ b.width _
  · rcases hj with hj | hj | hj
    · intro h
      rw [h, hfs.1] at hj
      simp at hj
    · intro h; rw [h] at hj; omega
    · intro h; rw [h] at hj; omega
  · intro helig
    rcases helig with helig | helig
    · omega
    · rcases hj with hj | hj | hj
      · rw [hj] at helig; simp at helig
      · omega
      · omega

/-- Witness for `stretch_only_distribution`: the `ColumnStyle::stretch` doc
example (block of width 12 over a stretch column 0 and a non-stretch
column 1). -/
theorem stretch_only_distribution_witness :
    let g : GridBuilder := ⟨[], 2, [⟨true, true⟩, ⟨true, false⟩]⟩
    let b : Block := ⟨1, 2, 0, 12⟩
    (g.columnStyle (findStart g b)).stretch = true
    ∧ (processBlock g [1, 1] b).getD 1 0 = 1 := by
  have h := stretch_only_distribution ⟨[], 2, [⟨true, true⟩, ⟨true, false⟩]⟩
    ⟨1, 2, 0, 12⟩ [1, 1] (by decide) (by decide)
  refine ⟨h.1, ?_⟩
  rw [h.2.2 1 (Or.inl (by decide))]
  decide

/-- **C4**: the per-block distribution loop terminates.  Whenever the
block's running total is short of its requirement, one iteration of the
`while` body strictly increases the total and the width of at least one
eligible (scanned) column by at least 1, while never overshooting the
requirement; consequently `b.width - wsum` fuel suffices and the loop ends
with the requirement met, so `get_widths` is total. -/
theorem distribution_loop_terminates (g : GridBuilder) (b : Block) (start : Nat)
    (ws : List Nat) (wsum : Nat)
    (hlt : wsum < b.width)
    (hst : b.column ≤ start ∧ start < b.column + b.colspan)
    (hlen : b.column + b.colspan ≤ ws.length) :
    wsum < (distribute b.width (scanMin g b start ws).minW (scanMin g b start ws).nextW
        (scanMin g b start ws).cols (ws, wsum)).2
    ∧ (distribute b.width (scanMin g b start ws).minW (scanMin g b start ws).nextW
        (scanMin g b start ws).cols (ws, wsum)).2 ≤ b.width
    ∧ (∃ c ∈ (scanMin g b start ws).cols,
        ws.getD c 0 < (distribute b.width (scanMin g b start ws).minW
          (scanMin g b start ws).nextW (scanMin g b start ws).cols (ws, wsum)).1.getD c 0)
    ∧ b.width ≤ (expandLoop g b start (b.width - wsum) (ws, wsum)).2 := by
  have hscan := scanMin_spec g b start ws
  obtain ⟨c, rest, hcr⟩ : ∃ c rest, (scanMin g b start ws).cols = c :: rest := by
    cases hcols : (scanMin g b start ws).cols with
    | nil => exact absurd hcols hscan.1
    | cons c rest => exact ⟨c, rest, rfl⟩
  have hcb : c < ws.length := by
    have hc := hscan.2.2 c (by rw [hcr]; exact List.mem_cons_self c rest)
    rcases hc.1 with hc' | hc'
    · subst hc'; omega
    · omega
  refine ⟨?_, ?_, ?_, ?_⟩
  · rw [hcr]
    exact distribute_wsum_lt b.width _ _ c rest ws wsum hlt hscan.2.1
  · exact distribute_wsum_le b.width _ _ _ ws wsum (by omega)
  · refine ⟨c, by rw [hcr]; exact List.mem_cons_self c rest, ?_⟩
    rw [hcr]
    exact distribute_head_lt b.width _ _ c rest ws wsum hcb hlt hscan.2.1
  · exact expandLoop_post g b start (b.width - wsum) (ws, wsum) (by omega)

/-- Witness for `distribution_loop_terminates` at the doc-example block. -/
theorem distribution_loop_terminates_witness :
    let g : GridBuilder := ⟨[], 2, []⟩
    let b : Block := ⟨0, 2, 0, 12⟩
    5 < (distribute b.width (scanMin g b 0 [1, 1]).minW (scanMin g b 0 [1, 1]).nextW
        (scanMin g b 0 [1, 1]).cols ([1, 1], 5)).2
    ∧ b.width ≤ (expandLoop g b 0 (b.width - 5) ([1, 1], 5)).2 := by
  have h := distribution_loop_terminates ⟨[], 2, []⟩ ⟨0, 2, 0, 12⟩ 0 [1, 1] 5
    (by decide) (by decide) (by decide)
  exact ⟨h.1, h.2.2.2⟩

/-! ### The simple-cell pass -/

lemma foldl_simpleStep_len : ∀ (l : List (Nat × CellEntry)) (ws : List Nat),
    (l.foldl simpleStep ws).length = ws.length
  | [], _ => rfl
  | pc :: l, ws => by
      rw [List.foldl_cons, foldl_simpleStep_len l _]
      unfold simpleStep
      split
      · exact List.length_set ws _ _
      · rfl

lemma foldl_simpleStep_mono : ∀ (l : List (Nat × CellEntry)) (ws : List Nat) (i : Nat),
    ws.getD i 0 ≤ (l.foldl simpleStep ws).getD i 0
  | [], _, _ => le_refl _
  | pc :: l, ws, i => by
      rw [List.foldl_cons]
      refine le_trans ?_ (foldl_simpleStep_mono l _ i)
      unfold simpleStep
      split
      · exact getD_set_ge ws _ _ (le_max_left _ _) i
      · exact le_refl _

lemma foldl_simpleStep_bound : ∀ (l : List (Nat × CellEntry)) (ws : List Nat)
    (pc : Nat × CellEntry), pc ∈ l → pc.2.colspan = 1 → pc.1 < ws.length →
    pc.2.width ≤ (l.foldl simpleStep ws).getD pc.1 0
  | [], _, _, hmem, _, _ => by simp at hmem
  | x :: l, ws, pc, hmem, hcs, hlen => by
      rw [List.foldl_cons]
      rcases List.mem_cons.1 hmem with hx | hx
      · subst hx
        refine le_trans ?_ (foldl_simpleStep_mono l _ pc.1)
        unfold simpleStep
        rw [if_pos hcs, getD_set_self ws _ _ hlen]
        exact le_max_right _ _
      · refine foldl_simpleStep_bound l _ pc hx hcs ?_
        unfold simpleStep
        split
        · rw [List.length_set]; exact hlen
        · exact hlen

lemma simpleWidths_len (g : GridBuilder) : g.simpleWidths.length = g.columns := by
  unfold GridBuilder.simpleWidths
  rw [foldl_simpleStep_len, List.length_replicate]

lemma simpleWidths_bound (g : GridBuilder) (pc : Nat × CellEntry)
    (hmem : pc ∈ placedOf g.rows) (hcs : pc.2.colspan = 1) (hlt : pc.1 < g.columns) :
    pc.2.width ≤ g.simpleWidths.getD pc.1 0 := by
  unfold GridBuilder.simpleWidths
  exact foldl_simpleStep_bound _ _ pc hmem hcs (by rwa [List.length_replicate])

/-! ### The block map -/

lemma updateBlock_mem_self : ∀ (m : List ((Nat × Nat) × Nat)) (key : Nat × Nat) (w : Nat),
    ∃ v, (key, v) ∈ updateBlock m key w ∧ w ≤ v
  | [], key, w => ⟨w, by simp [updateBlock], le_refl _⟩
  | (k, v) :: rest, key, w => by
      unfold updateBlock
      split
      · next hk => exact ⟨max v w, hk ▸ List.mem_cons_self _ _, le_max_right _ _⟩
      · obtain ⟨v', hv1, hv2⟩ := updateBlock_mem_self rest key w
        exact ⟨v', List.mem_cons_of_mem _ hv1, hv2⟩

lemma updateBlock_preserve : ∀ (m : List ((Nat × Nat) × Nat)) (key : Nat × Nat) (w : Nat)
    (kv : (Nat × Nat) × Nat), kv ∈ m →
    ∃ v', (kv.1, v') ∈ updateBlock m key w ∧ kv.2 ≤ v'
  | [], _, _, _, hmem => by simp at hmem
  | (k, v) :: rest, key, w, kv, hmem => by
      unfold updateBlock
      rcases List.mem_cons.1 hmem with hx | hx
      · subst hx
        split
        · exact ⟨max v w, List.mem_cons_self _ _, le_max_left _ _⟩
        · exact ⟨v, List.mem_cons_self _ _, le_refl _⟩
      · split
        · next hk =>
            subst hk
            exact ⟨kv.2, List.mem_cons_of_mem _ (by simpa using hx), le_refl _⟩
        · obtain ⟨v', hv1, hv2⟩ := updateBlock_preserve rest key w kv hx
          exact ⟨v', List.mem_cons_of_mem _ hv1, hv2⟩

lemma updateBlock_keys : ∀ (m : List ((Nat × Nat) × Nat)) (key : Nat × Nat) (w : Nat)
    (kv : (Nat × Nat) × Nat), kv ∈ updateBlock m key w →
    kv.1 = key ∨ kv.1 ∈ m.map Prod.fst
  | [], key, w, kv, hmem => by
      unfold updateBlock at hmem
      simp only [List.mem_singleton] at hmem
      exact Or.inl (by rw [hmem])
  | (k, v) :: rest, key, w, kv, hmem => by
      unfold updateBlock at hmem
      revert hmem
      split
      · next hk =>
          intro hmem
          rcases List.mem_cons.1 hmem with hx | hx
          · subst hx; exact Or.inl hk
          · refine Or.inr ?_
            simp only [List.map_cons]
            exact List.mem_cons_of_mem _ (List.mem_map_of_mem Prod.fst hx)
      · intro hmem
        rcases List.mem_cons.1 hmem with hx | hx
        · subst hx
          exact Or.inr (by simp)
        · rcases updateBlock_keys rest key w kv hx with h | h
          · exact Or.inl h
          · refine Or.inr ?_
            simp only [List.map_cons]
            exact List.mem_cons_of_mem _ h

lemma foldl_blockStep_preserve : ∀ (l : List (Nat × CellEntry))
    (m : List ((Nat × Nat) × Nat)) (kv : (Nat × Nat) × Nat), kv ∈ m →
    ∃ v', (kv.1, v') ∈ l.foldl blockStep m ∧ kv.2 ≤ v'
  | [], _, kv, hmem => ⟨kv.2, hmem, le_refl _⟩
  | pc :: l, m, kv, hmem => by
      rw [List.foldl_cons]
      unfold blockStep
      split
      · exact foldl_blockStep_preserve l m kv hmem
      · obtain ⟨v', hv1, hv2⟩ := updateBlock_preserve m (pc.1, pc.2.colspan) pc.2.width kv hmem
        obtain ⟨v'', hv3, hv4⟩ := foldl_blockStep_preserve l _ (kv.1, v') hv1
        exact ⟨v'', hv3, le_trans hv2 hv4⟩

lemma foldl_blockStep_bound : ∀ (l : List (Nat × CellEntry))
    (m : List ((Nat × Nat) × Nat)) (pc : Nat × CellEntry), pc ∈ l → pc.2.colspan ≠ 1 →
    ∃ v, ((pc.1, pc.2.colspan), v) ∈ l.foldl blockStep m ∧ pc.2.width ≤ v
  | [], _, _, hmem, _ => by simp at hmem
  | x :: l, m, pc, hmem, hcs => by
      rw [List.foldl_cons]
      rcases List.mem_cons.1 hmem with hx | hx
      · subst hx
        obtain ⟨v, hv1, hv2⟩ := updateBlock_mem_self m (pc.1, pc.2.colspan) pc.2.width
        have hstep : blockStep m pc = updateBlock m (pc.1, pc.2.colspan) pc.2.width := by
          unfold blockStep
          rw [if_neg hcs]
        rw [hstep]
        obtain ⟨v', hv3, hv4⟩ := foldl_blockStep_preserve l _ ((pc.1, pc.2.colspan), v) hv1
        exact ⟨v', hv3, le_trans hv2 hv4⟩
      · exact foldl_blockStep_bound l _ pc hx hcs

lemma foldl_blockStep_keys : ∀ (l : List (Nat × CellEntry))
    (m : List ((Nat × Nat) × Nat)) (kv : (Nat × Nat) × Nat), kv ∈ l.foldl blockStep m →
    kv.1 ∈ m.map Prod.fst ∨ ∃ pc ∈ l, pc.2.colspan ≠ 1 ∧ kv.1 = (pc.1, pc.2.colspan)
  | [], _, kv, hmem => Or.inl (List.mem_map_of_mem Prod.fst hmem)
  | pc :: l, m, kv, hmem => by
      rw [List.foldl_cons] at hmem
      have h := foldl_blockStep_keys l (blockStep m pc) kv hmem
      rcases h with h | h
      · obtain ⟨kv', hkv1, hkv2⟩ := List.mem_map.1 h
        revert hkv1
        unfold blockStep
        split
        · intro hkv1
          exact Or.inl (hkv2 ▸ List.mem_map_of_mem Prod.fst hkv1)
        · next hcs =>
            intro hkv1
            rcases updateBlock_keys m _ _ kv' hkv1 with hk | hk
            · exact Or.inr ⟨pc, List.mem_cons_self _ _, hcs, hkv2 ▸ hk⟩
            · exact Or.inl (hkv2 ▸ hk)
      · obtain ⟨pc', hpc1, hpc2⟩ := h
        exact Or.inr ⟨pc', List.mem_cons_of_mem _ hpc1, hpc2⟩

lemma blocksOf_of_cell (g : GridBuilder) (pc : Nat × CellEntry)
    (hmem : pc ∈ placedOf g.rows) (hcs : pc.2.colspan ≠ 1) :
    ∃ b ∈ g.blocksOf, b.column = pc.1 ∧ b.colspan = pc.2.colspan ∧ pc.2.width ≤ b.width
      ∧ b.stretch = g.stretchCount pc.1 pc.2.colspan := by
  obtain ⟨v, hv1, hv2⟩ := foldl_blockStep_bound (placedOf g.rows) [] pc hmem hcs
  refine ⟨⟨g.stretchCount pc.1 pc.2.colspan, pc.2.colspan, pc.1, v⟩, ?_, rfl, rfl, hv2, rfl⟩
  unfold GridBuilder.blocksOf GridBuilder.blockMap
  exact List.mem_map.2 ⟨((pc.1, pc.2.colspan), v), hv1, rfl⟩

lemma blocksOf_key_of_cell (g : GridBuilder) (b : Block) (hb : b ∈ g.blocksOf) :
    ∃ pc ∈ placedOf g.rows, pc.2.colspan ≠ 1 ∧ b.column = pc.1 ∧ b.colspan = pc.2.colspan := by
  obtain ⟨kv, hkv1, hkv2⟩ := List.mem_map.1 hb
  have h := foldl_blockStep_keys (placedOf g.rows) [] kv hkv1
  rcases h with h | h
  · simp at h
  · obtain ⟨pc, hpc1, hpc2, hpc3⟩ := h
    refine ⟨pc, hpc1, hpc2, ?_, ?_⟩
    · rw [← hkv2, hpc3]
    · rw [← hkv2, hpc3]

/-! ### Folding all blocks -/

lemma foldl_processBlock_mono (g : GridBuilder) : ∀ (bl : List Block) (ws : List Nat) (i : Nat),
    ws.getD i 0 ≤ (bl.foldl (processBlock g) ws).getD i 0
  | [], _, _ => le_refl _
  | b :: bl, ws, i => by
      rw [List.foldl_cons]
      exact le_trans (processBlock_mono g ws b i) (foldl_processBlock_mono g bl _ i)

lemma foldl_processBlock_len (g : GridBuilder) : ∀ (bl : List Block) (ws : List Nat),
    (bl.foldl (processBlock g) ws).length = ws.length
  | [], _ => rfl
  | b :: bl, ws => by
      rw [List.foldl_cons, foldl_processBlock_len g bl _, processBlock_len]

/-- **C1**: for every well-formed built grid, the reconciled widths satisfy
both `get_widths` post-conditions: every colspan-1 cell's column width is at
least that cell's display width, and every colspan>1 cell receives, via
`get_width` (spanned widths plus 3 per internal printed divider), at least
its display width. -/
theorem get_widths_post (g : GridBuilder) (hwf : g.WellFormed) :
    (∀ pc ∈ placedOf g.rows, pc.2.colspan = 1 →
        pc.2.width ≤ g.getWidths.getD pc.1 0)
    ∧ ∀ pc ∈ placedOf g.rows, 1 < pc.2.colspan →
        pc.2.width ≤ g.getWidth g.getWidths pc.1 pc.2.colspan := by
  constructor
  · intro pc hmem hcs
    have hwfc := hwf pc hmem
    have h1 := simpleWidths_bound g pc hmem hcs (by omega)
    have h2 := foldl_processBlock_mono g g.sortedBlocks g.simpleWidths pc.1
    exact le_trans h1 h2
  · intro pc hmem hcs
    have hwfc := hwf pc hmem
    obtain ⟨b, hb, hbcol, hbcs, hbw, hbst⟩ := blocksOf_of_cell g pc hmem (by omega)
    have hbsorted : b ∈ g.sortedBlocks :=
      ((List.perm_insertionSort blockRel g.blocksOf).mem_iff).2 hb
    obtain ⟨l1, l2, hsplit⟩ := List.append_of_mem hbsorted
    have hlen1 : (l1.foldl (processBlock g) g.simpleWidths).length = g.columns := by
      rw [foldl_processBlock_len, simpleWidths_len]
    have hpost := processBlock_post g (l1.foldl (processBlock g) g.simpleWidths) b
      (by omega) (by rw [hlen1]; omega)
    have hmono := foldl_processBlock_mono g l2
      (processBlock g (l1.foldl (processBlock g) g.simpleWidths) b)
    have hw : g.getWidth g.getWidths b.column b.colspan
        ≥ g.getWidth (processBlock g (l1.foldl (processBlock g) g.simpleWidths) b)
            b.column b.colspan := by
      unfold GridBuilder.getWidths
      rw [hsplit, List.foldl_append, List.foldl_cons]
      exact getWidth_mono g _ _ b.column b.colspan hmono
    rw [hbcol, hbcs] at hpost hw
    omega

/-- Witness for `get_widths_post`: the `ColumnStyle::stretch` doc-example
grid (a width-12 cell spanning two columns over two width-1 cells). -/
theorem get_widths_post_witness :
    let g : GridBuilder := buildGrid [.row [⟨"............", 12, 2⟩],
      .row [⟨"A", 1, 1⟩, ⟨"B", 1, 1⟩]]
    (∀ pc ∈ placedOf g.rows, pc.2.colspan = 1 →
        pc.2.width ≤ g.getWidths.getD pc.1 0)
    ∧ ∀ pc ∈ placedOf g.rows, 1 < pc.2.colspan →
        pc.2.width ≤ g.getWidth g.getWidths pc.1 pc.2.colspan := by
  exact get_widths_post _ (by decide)

/-! ### The block order is total and deterministic -/

instance : IsTotal Block blockRel :=
  ⟨fun a b => by
    simp only [blockRel, Block.le, Bool.or_eq_true, Bool.and_eq_true, decide_eq_true_eq]
    omega⟩

instance : IsTrans Block blockRel :=
  ⟨fun a b c hab hbc => by
    simp only [blockRel, Block.le, Bool.or_eq_true, Bool.and_eq_true,
      decide_eq_true_eq] at hab hbc ⊢
    omega⟩

instance : IsAntisymm Block blockRel :=
  ⟨fun a b hab hba => by
    cases a
    cases b
    simp only [blockRel, Block.le, Bool.or_eq_true, Bool.and_eq_true,
      decide_eq_true_eq] at hab hba
    simp only [Block.mk.injEq]
    omega⟩

lemma updateBlock_keys_nodup : ∀ (m : List ((Nat × Nat) × Nat)) (key : Nat × Nat) (w : Nat),
    (m.map Prod.fst).Nodup → ((updateBlock m key w).map Prod.fst).Nodup
  | [], key, w, _ => by simp [updateBlock]
  | (k, v) :: rest, key, w, hnd => by
      unfold updateBlock
      simp only [List.map_cons, List.nodup_cons] at hnd
      split
      · simpa [List.nodup_cons] using hnd
      · next hk =>
          simp only [List.map_cons, List.nodup_cons]
          refine ⟨?_, updateBlock_keys_nodup rest key w hnd.2⟩
          intro hmem
          obtain ⟨kv, hkv1, hkv2⟩ := List.mem_map.1 hmem
          rcases updateBlock_keys rest key w kv hkv1 with h | h
          · exact hk (hkv2 ▸ h ▸ rfl)
          · exact hnd.1 (hkv2 ▸ h)

lemma foldl_blockStep_keys_nodup : ∀ (l : List (Nat × CellEntry))
    (m : List ((Nat × Nat) × Nat)),
    (m.map Prod.fst).Nodup → ((l.foldl blockStep m).map Prod.fst).Nodup
  | [], _, hnd => hnd
  | pc :: l, m, hnd => by
      rw [List.foldl_cons]
      refine foldl_blockStep_keys_nodup l _ ?_
      unfold blockStep
      split
      · exact hnd
      · exact updateBlock_keys_nodup m _ _ hnd

lemma blockMap_keys_nodup (g : GridBuilder) : (g.blockMap.map Prod.fst).Nodup :=
  foldl_blockStep_keys_nodup _ [] (by simp)

/-- **C3**: the colspan>1 blocks are deduplicated by `(column, colspan)`
(the key list of the block map has no duplicates) and sorted into exactly
ascending lexicographic `(stretch count, colspan, column, width)` order,
which is a total, antisymmetric order; hence sorting ANY permutation of the
deduplicated block list — any hash-map iteration order — yields the same
sorted list and the same computed widths as `get_widths`. -/
theorem blocks_sort_deterministic (g : GridBuilder) (l : List Block)
    (hp : l.Perm g.blocksOf) :
    List.insertionSort blockRel l = g.sortedBlocks
    ∧ (List.insertionSort blockRel l).foldl (processBlock g) g.simpleWidths = g.getWidths
    ∧ List.Sorted blockRel g.sortedBlocks
    ∧ (g.blockMap.map Prod.fst).Nodup := by
  have heq : List.insertionSort blockRel l = g.sortedBlocks := by
    refine List.eq_of_perm_of_sorted ?_ (List.sorted_insertionSort blockRel l)
      (List.sorted_insertionSort blockRel g.blocksOf)
    exact (List.perm_insertionSort blockRel l).trans
      (hp.trans (List.perm_insertionSort blockRel g.blocksOf).symm)
  refine ⟨heq, ?_, List.sorted_insertionSort blockRel g.blocksOf, blockMap_keys_nodup g⟩
  rw [heq]
  rfl

/-! ### Grids built through the public API are well-formed -/

lemma withPositions_bound : ∀ (cs : List CellEntry) (col : Nat) (pc : Nat × CellEntry),
    pc ∈ withPositions col cs →
    pc.2 ∈ cs ∧ col ≤ pc.1
      ∧ pc.1 + pc.2.colspan ≤ col + (cs.map (fun c => c.colspan)).sum
  | [], _, _, hmem => by simp [withPositions] at hmem
  | c :: cs, col, pc, hmem => by
      rw [withPositions] at hmem
      rcases List.mem_cons.1 hmem with hx | hx
      · subst hx
        simp only [List.map_cons, List.sum_cons]
        exact ⟨List.mem_cons_self _ _, le_refl _, by omega⟩
      · have ih := withPositions_bound cs (col + c.colspan) pc hx
        simp only [List.map_cons, List.sum_cons]
        exact ⟨List.mem_cons_of_mem _ ih.1, by omega, by omega⟩

lemma placedOf_append : ∀ (rs1 rs2 : List RowEntry),
    placedOf (rs1 ++ rs2) = placedOf rs1 ++ placedOf rs2
  | [], _ => rfl
  | r :: rs1, rs2 => by
      rw [List.cons_append, placedOf, placedOf, placedOf_append rs1 rs2, List.append_assoc]

lemma placedOf_setLastSeparator : ∀ rs : List RowEntry,
    placedOf (setLastSeparator rs) = placedOf rs
  | [] => rfl
  | [_] => rfl
  | r :: r' :: rs => by
      show withPositions 0 r.cells ++ placedOf (setLastSeparator (r' :: rs))
          = withPositions 0 r.cells ++ placedOf (r' :: rs)
      rw [placedOf_setLastSeparator (r' :: rs)]

lemma wf_applyOp (g : GridBuilder) (op : BuildOp) (hwf : g.WellFormed) :
    (applyOp g op).WellFormed := by
  cases op with
  | sep =>
      intro pc hmem
      simp only [applyOp, pushSeparator] at hmem ⊢
      rw [placedOf_setLastSeparator] at hmem
      exact hwf pc hmem
  | row cs =>
      intro pc hmem
      simp only [applyOp, pushRow] at hmem ⊢
      rw [placedOf_append] at hmem
      rcases List.mem_append.1 hmem with hx | hx
      · have h := hwf pc hx
        omega
      · simp only [placedOf, List.append_nil] at hx
        have h := withPositions_bound _ 0 pc hx
        have hcs : pc.2.colspan ≠ 0 := by
          have := List.mem_filter.1 h.1
          simpa using this.2
        refine ⟨by omega, ?_⟩
        have := h.2.2
        omega

lemma buildGrid_wf_aux : ∀ (ops : List BuildOp) (g : GridBuilder),
    g.WellFormed → (ops.foldl applyOp g).WellFormed
  | [], _, hwf => hwf
  | op :: ops, g, hwf => buildGrid_wf_aux ops _ (wf_applyOp g op hwf)

lemma buildGrid_wf (ops : List BuildOp) : (buildGrid ops).WellFormed :=
  buildGrid_wf_aux ops GridBuilder.new (by intro pc hmem; simp [placedOf] at hmem)

lemma getWidths_len (g : GridBuilder) : g.getWidths.length = g.columns := by
  unfold GridBuilder.getWidths
  rw [foldl_processBlock_len, simpleWidths_len]

/-- **C10**: rendering a grid built through the public API is total.  Every
stored cell has `colspan ≥ 1` and fits inside the derived column count, the
reconciled widths vector has exactly `columns` entries (so no index is out
of bounds), and each cell's allotted `get_width` is at least its display
width, so the padding subtraction `width - c.width` in `Display::fmt` never
underflows. -/
theorem render_safe (ops : List BuildOp) :
    (buildGrid ops).WellFormed
    ∧ (buildGrid ops).getWidths.length = (buildGrid ops).columns
    ∧ ∀ pc ∈ placedOf (buildGrid ops).rows,
        1 ≤ pc.2.colspan
        ∧ pc.1 + pc.2.colspan ≤ (buildGrid ops).columns
        ∧ pc.2.width ≤ (buildGrid ops).getWidth (buildGrid ops).getWidths pc.1 pc.2.colspan := by
  have hwf := buildGrid_wf ops
  have hpost := get_widths_post (buildGrid ops) hwf
  refine ⟨hwf, getWidths_len _, ?_⟩
  intro pc hmem
  have hc := hwf pc hmem
  refine ⟨hc.1, hc.2, ?_⟩
  rcases Nat.eq_or_lt_of_le hc.1 with hcs | hcs
  · rw [← hcs, getWidth_one]
    have h := hpost.1 pc hmem hcs.symm
    exact h
  · exact hpost.2 pc hmem hcs

/-- Witness for `blocks_sort_deterministic`: a grid with two distinct
spanning blocks, handed to the sort in reversed (simulated hash) order. -/
theorem blocks_sort_deterministic_witness :
    let g : GridBuilder := buildGrid [.row [⟨"abcd", 4, 2⟩],
      .row [⟨"a", 1, 1⟩, ⟨"b", 1, 1⟩, ⟨"c", 1, 1⟩], .row [⟨"xyzxyz", 6, 3⟩]]
    (List.insertionSort blockRel g.blocksOf.reverse = g.sortedBlocks)
    ∧ (List.insertionSort blockRel g.blocksOf.reverse).foldl (processBlock g) g.simpleWidths
        = g.getWidths := by
  have h := blocks_sort_deterministic
    (buildGrid [.row [⟨"abcd", 4, 2⟩],
      .row [⟨"a", 1, 1⟩, ⟨"b", 1, 1⟩, ⟨"c", 1, 1⟩], .row [⟨"xyzxyz", 6, 3⟩]])
    (buildGrid [.row [⟨"abcd", 4, 2⟩],
      .row [⟨"a", 1, 1⟩, ⟨"b", 1, 1⟩, ⟨"c", 1, 1⟩], .row [⟨"xyzxyz", 6, 3⟩]]).blocksOf.reverse
    (List.reverse_perm _)
  exact ⟨h.1, h.2.1⟩

/-! ### The separator line -/

lemma advance_comp (col1 col2 : Nat) (h : col1 ≤ col2) :
    ∀ (cs : List Nat) (cur : Nat),
      advance col2 (advance col1 cur cs).1 (advance col1 cur cs).2 = advance col2 cur cs
  | [], cur => rfl
  | c :: rest, cur => by
      rw [advance]
      split
      · next hle =>
          rw [advance_comp col1 col2 h rest (cur + c)]
          rw [advance]
          rw [if_pos (by omega)]
      · rfl

lemma advanceO_comp (col1 col2 : Nat) (h : col1 ≤ col2) (o : Option (Nat × List Nat)) :
    advanceO col2 (advanceO col1 o) = advanceO col2 o := by
  cases o with
  | none => rfl
  | some p =>
      cases p with
      | mk cur cs =>
          show some (advance col2 (advance col1 cur cs).1 (advance col1 cur cs).2)
            = some (advance col2 cur cs)
          rw [advance_comp col1 col2 h cs cur]

lemma advance_breaks : ∀ (cs : List Nat) (cur col : Nat),
    (advance col cur cs).1 = col + 1 ↔ ∃ k, cur + (cs.take k).sum = col + 1
  | [], cur, col => by
      constructor
      · intro h; exact ⟨0, by simpa using h⟩
      · rintro ⟨k, hk⟩; simpa using hk
  | c :: rest, cur, col => by
      rw [advance]
      split
      · next hle =>
          rw [advance_breaks rest (cur + c) col]
          constructor
          · rintro ⟨k, hk⟩
            exact ⟨k + 1, by simpa [Nat.add_assoc] using hk⟩
          · rintro ⟨k, hk⟩
            cases k with
            | zero => simp at hk; omega
            | succ k => exact ⟨k, by simpa [Nat.add_assoc] using hk⟩
      · next hgt =>
          constructor
          · intro h; exact ⟨0, by simpa using h⟩
          · rintro ⟨k, hk⟩
            have : (((c :: rest).take k).sum : Nat) ≥ 0 := Nat.zero_le _
            simp only
            omega

lemma sep_fold (g : GridBuilder) (widths : List Nat) (r : Nat) :
    ∀ (m : Nat) (s : Nat) (out : List Char) (ca cb : Option (Nat × List Nat)),
    (∀ col, s ≤ col → advanceO col ca = advanceO col (cursorInit g r)) →
    (∀ col, s ≤ col → advanceO col cb = advanceO col (cursorInit g (r + 1))) →
    ((List.range' s m).foldl (sepStep g widths) (out, ca, cb)).1
      = (List.range' s m).foldl (fun out col =>
          out ++ (if g.hasLeftPadding col then ['-'] else [])
              ++ List.replicate (widths.getD col 0) '-'
              ++ (if g.hasRightPadding col then ['-'] else [])
              ++ (if g.hasBorder (col + 1) then [g.sepBoundaryChar r col] else [])) out
  | 0, s, out, ca, cb, _, _ => rfl
  | m + 1, s, out, ca, cb, hca, hcb => by
      rw [List.range'_succ, List.foldl_cons, List.foldl_cons]
      have hstep : sepStep g widths (out, ca, cb) s
          = (out ++ (if g.hasLeftPadding s then ['-'] else [])
              ++ List.replicate (widths.getD s 0) '-'
              ++ (if g.hasRightPadding s then ['-'] else [])
              ++ (if g.hasBorder (s + 1) then [g.sepBoundaryChar r s] else []),
            advanceO s ca, advanceO s cb) := by
        unfold sepStep
        rw [hca s (le_refl s), hcb s (le_refl s)]
        rfl
      rw [hstep]
      exact sep_fold g widths r m (s + 1) _ (advanceO s ca) (advanceO s cb)
        (fun col hcol => by
          rw [hca s (by omega), advanceO_comp s col (by omega)])
        (fun col hcol => by
          rw [hcb s (by omega), advanceO_comp s col (by omega)])

lemma sepRow_eq_spec (g : GridBuilder) (r : Nat) : g.sepRow r = g.sepRowSpec r := by
  unfold GridBuilder.sepRow GridBuilder.sepRowSpec
  rw [List.range_eq_range']
  exact sep_fold g g.getWidths r g.getWidths.length 0 [] (cursorInit g r)
    (cursorInit g (r + 1)) (fun _ _ => rfl) (fun _ _ => rfl)

/-- **C6**: on a separator line drawn under a row marked "separator
follows", each output column is filled with dashes sized to its width (the
`sepRow`/`sepRowSpec` equation exposes the per-column segments), and the
character printed at an interior boundary position `n` where a divider
prints per `has_border` is `'|'` exactly when both the row above and the
row below the separator break exactly at that boundary — `n` is a prefix
sum of both rows' colspans, so neither row has a cell spanning across it. -/
theorem sep_boundary_iff (g : GridBuilder) (r n : Nat)
    (hr2 : r + 1 < g.rows.length)
    (_hsep : (g.rows.getD r ⟨[], false⟩).has_separator = true)
    (hn : 0 < n) (_hcol : n < g.columns) (_hb : g.hasBorder n = true) :
    g.sepRow r = g.sepRowSpec r
    ∧ (g.sepBoundaryChar r (n - 1) = '|'
        ↔ breaksAt (rowColspans g r) n ∧ breaksAt (rowColspans g (r + 1)) n) := by
  refine ⟨sepRow_eq_spec g r, ?_⟩
  have hr1 : r < g.rows.length := by omega
  unfold GridBuilder.sepBoundaryChar
  rw [cursorInit, if_pos hr1, cursorInit, if_pos hr2]
  have hsucc : n - 1 + 1 = n := by omega
  show (if ([advanceO (n - 1) (some (0, rowColspans g r)),
        advanceO (n - 1) (some (0, rowColspans g (r + 1)))].filterMap id).all
          (fun c => c.1 == n - 1 + 1) = true then '|' else '-') = '|' ↔ _
  simp only [advanceO, List.filterMap, id, List.all_cons, List.all_nil, Bool.and_eq_true,
    Bool.and_true, beq_iff_eq, hsucc]
  constructor
  · intro h
    split at h
    · next hcond =>
        obtain ⟨h1, h2⟩ := hcond
        constructor
        · obtain ⟨k, hk⟩ := (advance_breaks (rowColspans g r) 0 (n - 1)).1
            (by rw [hsucc]; exact h1)
          exact ⟨k, by omega⟩
        · obtain ⟨k, hk⟩ := (advance_breaks (rowColspans g (r + 1)) 0 (n - 1)).1
            (by rw [hsucc]; exact h2)
          exact ⟨k, by omega⟩
    · exact absurd h (by decide)
  · rintro ⟨⟨k1, hk1⟩, ⟨k2, hk2⟩⟩
    rw [if_pos]
    constructor
    · have h := (advance_breaks (rowColspans g r) 0 (n - 1)).2 ⟨k1, by omega⟩
      rw [hsucc] at h
      exact h
    · have h := (advance_breaks (rowColspans g (r + 1)) 0 (n - 1)).2 ⟨k2, by omega⟩
      rw [hsucc] at h
      exact h

/-- Witness for `sep_boundary_iff`: the `GridBuilder` doc example — the
separator under the header row of `name | type | value` with the body rows
below; at boundary 1 both rows break, so the separator prints `'|'`. -/
theorem sep_boundary_iff_witness :
    let g : GridBuilder := buildGrid [.row [⟨"name", 4, 1⟩, ⟨"type", 4, 1⟩, ⟨"value", 5, 1⟩],
      .sep, .row [⟨"X", 1, 1⟩, ⟨"A", 1, 1⟩, ⟨"10", 2, 1⟩]]
    g.sepRow 0 = g.sepRowSpec 0
    ∧ (g.sepBoundaryChar 0 0 = '|'
        ↔ breaksAt (rowColspans g 0) 1 ∧ breaksAt (rowColspans g 1) 1) := by
  exact sep_boundary_iff _ 0 1 (by decide) (by decide) (by decide) (by decide) (by decide)

end TextGrid
